import Mathlib

/-!
# The Pintos timer (`devices/timer.c`)

A shallow embedding of `src/devices/timer.c` and the properties of its tick counter,
its ordered sleep list, its interrupt handler and its calibration routine.

The file-level variables `ticks`, `sleeping_threads` and `loops_per_tick` become the
fields of `TimerState`.  Calls into the rest of the kernel (semaphores, the interrupt
controller, `printf`, `thread_tick`, `busy_wait`) are recorded, in program order, in
the `trace` field, so that "what was signalled, and in which order" is a statement
about a list of events.  The read of `ticks` in `timer_ticks` and the insertion into
`sleeping_threads` in `thread_sleep`, the two places where code running in a thread
touches a variable that the interrupt handler changes, are recorded in the same trace,
each with the interrupt level at which it happens.
-/

namespace Timer

/-! ## Machine integers -/

/-- Smallest value of `int64_t`. -/
def INT64_MIN : Int := -(2 ^ 63)

/-- Largest value of `int64_t`. -/
def INT64_MAX : Int := 2 ^ 63 - 1

/-- Two's complement reduction of an integer to the range of `int64_t`. -/
def int64_wrap (x : Int) : Int := (x + 2 ^ 63) % 2 ^ 64 - 2 ^ 63

/-- Sum of two `int64_t` values as the machine computes it. -/
def int64_add (a b : Int) : Int := int64_wrap (a + b)

/-- Product of two `int64_t` values as the machine computes it. -/
def int64_mul (a b : Int) : Int := int64_wrap (a * b)

/-- Quotient of two `int64_t` values, rounding toward zero as C does
(the divisor is not zero). -/
def int64_div (a b : Int) : Int := int64_wrap (Int.tdiv a b)

/-- Reduction of a natural number to the range of `unsigned` (32 bits). -/
def uint32_wrap (x : Nat) : Nat := x % 2 ^ 32

/-- Largest value of `int32_t`, the type of the denominator of a real-time delay. -/
def INT32_MAX : Int := 2 ^ 31 - 1

/-- Smallest value of `int32_t`, the type of the denominator of a real-time delay. -/
def INT32_MIN : Int := -(2 ^ 31)

/-! ## Data model -/

/-- Interrupt level of `threads/interrupt.h`. -/
inductive intr_level where
  | INTR_OFF
  | INTR_ON
deriving DecidableEq

/-- The part of `struct thread` that `timer.c` uses: `tid` identifies the thread (it
stands for the address of the struct, hence of its `sleep_elem` and `sleep_sem`), and
`sleep_ticks` is the tick at which the thread is to be woken.  A thread that is in the
sleep list has called `sema_down` and issues no second sleep before it is woken (the
caller contract of the spec), so a thread has at most one entry in the list. -/
structure thread where
  tid : Nat
  sleep_ticks : Int
deriving DecidableEq

/-- The `printf` call sites of `timer.c`, with the values they print. -/
inductive Msg where
  | calibrating
  | loops_per_s (n : Nat)
  | timer_stats (t : Int)
  | ticks (t : Int)
  | tickers (t : Int)
  | wake_up
  | prev
  | next
  | woke_up (tid : Nat)
deriving DecidableEq

/-- The variables of `timer.c` that code running in a thread shares with the interrupt
handler. -/
inductive Shared where
  | ticks
  | sleeping_threads
deriving DecidableEq

/-- Calls that `timer.c` makes into the rest of the kernel, and `access v level`:
`timer_ticks` or `thread_sleep`, running in a thread, reads or writes the shared variable
`v` while the interrupt level is `level`.  (The handler `timer_interrupt` runs as an
external interrupt handler, with interrupts off, and the measurement `too_many_loops` is
represented by its answer; their accesses are not recorded.) -/
inductive Event where
  | intr_disable
  | intr_set_level (level : intr_level)
  | sema_up (t : thread)
  | sema_down (t : thread)
  | printf (m : Msg)
  | thread_tick
  | busy_wait (loops : Int)
  | too_many_loops (loops : Nat) (result : Bool)
  | access (v : Shared) (level : intr_level)
deriving DecidableEq

/-- The state that `timer.c` reads and writes.

* `ticks` is the `int64_t` counter of timer ticks since boot.  It is changed by
  `timer_interrupt` only, by `ticks++`, which is computed in `int64_t` like all other
  arithmetic on 64-bit values: at `INT64_MAX` it gives `INT64_MIN`.
* `sleeping_threads` is the list of sleeping threads, front first.  An entry stands for
  the `sleep_elem` of a thread together with that thread's `sleep_ticks`.
* `loops_per_tick` is the `unsigned` calibration constant.
* `level` is the current interrupt level.
* `trace` is the sequence of calls made so far, oldest first. -/
structure TimerState where
  ticks : Int
  sleeping_threads : List thread
  loops_per_tick : Nat
  level : intr_level
  trace : List Event

/-- How a routine ends: `returned s` when it ran to its end and leaves the state `s`;
`panic s` when an `ASSERT` failed in the state `s` (the kernel panics and the routine
never returns); `divide_error s` when a division by zero was executed in the state `s`;
`out_of_fuel` when the iteration budget given to a loop of the model was used up. -/
inductive Outcome where
  | returned (s : TimerState)
  | panic (s : TimerState)
  | divide_error (s : TimerState)
  | out_of_fuel

/-! ## Collaborators -/

/-- Records a call in the trace. -/
def emit (e : Event) (s : TimerState) : TimerState :=
  { s with trace := s.trace ++ [e] }

/-- Records that thread code reads or writes the shared variable `v`, together with the
interrupt level of the state in which it does so. -/
def access (v : Shared) (s : TimerState) : TimerState :=
  emit (Event.access v s.level) s

/-- Thread code reads the shared counter `ticks`: the value read, and the state with the
read recorded at its interrupt level. -/
def read_ticks (s : TimerState) : Int × TimerState :=
  (s.ticks, access Shared.ticks s)

/-- Thread code changes the shared list `sleeping_threads` by `f`: the list is read and
written in the state `s`, and the change is recorded at the interrupt level of `s`. -/
def update_sleeping_threads (f : List thread → List thread) (s : TimerState) :
    TimerState :=
  access Shared.sleeping_threads { s with sleeping_threads := f s.sleeping_threads }

/-- Modelled from the spec: `intr_disable` of `threads/interrupt.c` (not among the
sources): "the ability to query/set/disable the current interrupt-suppression level".
Turns interrupts off and returns the previous level. -/
def intr_disable (s : TimerState) : intr_level × TimerState :=
  (s.level, emit Event.intr_disable { s with level := intr_level.INTR_OFF })

/-- Modelled from the spec: `intr_set_level` of `threads/interrupt.c` (not among the
sources): sets the interrupt level to `level`. -/
def intr_set_level (level : intr_level) (s : TimerState) : TimerState :=
  emit (Event.intr_set_level level) { s with level := level }

/-- Modelled from the spec: `intr_get_level` of `threads/interrupt.c` (not among the
sources): the current interrupt level. -/
def intr_get_level (s : TimerState) : intr_level := s.level

/-- Modelled from the spec: `list_insert_ordered` of `lib/kernel/list.c` (not among the
sources): "inserts a new SleepRequest keeping the collection sorted", the collection
being "sorted ascending by wake-tick; ties broken by arrival order (stable)".  The new
element goes in front of the first element that it is `less` than, and at the back when
there is none. -/
def list_insert_ordered {α : Type} (list : List α) (elem : α) (less : α → α → Bool) :
    List α :=
  match list with
  | [] => [elem]
  | e :: rest =>
    if less elem e then elem :: e :: rest
    else e :: list_insert_ordered rest elem less

/-! ## Tick counter -/

/-- `timer_init`: initialises the list of sleeping threads (programming the timer chip
and registering the handler are outside this model). -/
def timer_init (s : TimerState) : TimerState :=
  { s with sleeping_threads := [] }

/-- `timer_ticks`: the number of timer ticks since boot, read with interrupts off. -/
def timer_ticks (s : TimerState) : Int × TimerState :=
  let d := intr_disable s
  let t := read_ticks d.2
  (t.1, intr_set_level d.1 t.2)

/-- `timer_elapsed`: the number of ticks since `then_`. -/
def timer_elapsed (then_ : Int) (s : TimerState) : Int × TimerState :=
  let r := timer_ticks s
  (int64_wrap (r.1 - then_), r.2)

/-! ## Sleeping -/

/-- `ticks_compare`: true if thread `a` has less ticks than thread `b`. -/
def ticks_compare (a b : thread) : Bool := decide (a.sleep_ticks < b.sleep_ticks)

/-- `thread_sleep`: the thread `cur` (the result of `thread_current ()`) records its wake
tick, links itself into the sleep list with interrupts off, and downs its semaphore.
Blocking itself is the scheduler's business; the model records the `sema_down` call. -/
def thread_sleep (cur : Nat) (ticks : Int) (s : TimerState) : TimerState :=
  let r := timer_ticks s
  let start := r.1
  let me : thread := { tid := cur, sleep_ticks := int64_add start ticks }
  let d := intr_disable r.2
  let s1 := update_sleeping_threads (fun l => list_insert_ordered l me ticks_compare) d.2
  let s2 := intr_set_level d.1 s1
  emit (Event.sema_down me) s2

/-- `timer_sleep`: sleeps for approximately `ticks` timer ticks; interrupts must be on. -/
def timer_sleep (cur : Nat) (ticks : Int) (s : TimerState) : Outcome :=
  let r := timer_ticks s
  if intr_get_level r.2 = intr_level.INTR_ON then
    Outcome.returned (thread_sleep cur ticks r.2)
  else Outcome.panic r.2

/-! ## Interrupt handler -/

/-- The inner `for` loop of `timer_interrupt`: one `printf` per thread still in the
list. -/
def print_sleepers (s : TimerState) : TimerState :=
  s.sleeping_threads.foldl (fun acc t => emit (Event.printf (Msg.woke_up t.tid)) acc) s

/-- The body of the `while` loop of `timer_interrupt` for a due thread `t` at the front
of the list (`list_begin`), `rest` being the elements behind it: five `printf` calls,
`sema_up` on the semaphore of `t`, `list_remove` of the front element, a pair
`intr_disable` / `intr_set_level`, and the inner `for` loop.  What the `printf` calls
for the neighbours of the element print (`list_prev`, `list_next`) is not modelled. -/
def wake_front (t : thread) (rest : List thread) (s : TimerState) : TimerState :=
  let s1 := emit (Event.printf (Msg.ticks s.ticks)) s
  let s2 := emit (Event.printf (Msg.tickers t.sleep_ticks)) s1
  let s3 := emit (Event.printf Msg.wake_up) s2
  let s4 := emit (Event.printf Msg.prev) s3
  let s5 := emit (Event.printf Msg.next) s4
  let s6 := emit (Event.sema_up t) s5
  let s7 := { s6 with sleeping_threads := rest }
  let d := intr_disable s7
  let s8 := intr_set_level d.1 d.2
  print_sleepers s8

/-- The `while` loop of `timer_interrupt`: it ends when the list is empty
(`list_empty`) or when its front element is not due.  Every iteration that does not
leave the loop removes the front of the list, so with a budget of at least the length of
the list the loop ends by its own test (`wake_loop_budget`). -/
def wake_loop : Nat → TimerState → TimerState
  | 0, s => s
  | fuel + 1, s =>
    match s.sleeping_threads with
    | [] => s
    | t :: rest =>
      if s.ticks ≥ t.sleep_ticks then wake_loop fuel (wake_front t rest s)
      else s

/-- `timer_interrupt`: the timer interrupt handler.  It increments the `int64_t` counter
(`ticks++`), wakes the due threads at the front of the list and calls `thread_tick`. -/
def timer_interrupt (s : TimerState) : TimerState :=
  let s1 := { s with ticks := int64_add s.ticks 1 }
  let s2 := wake_loop s1.sleeping_threads.length s1
  emit Event.thread_tick s2

/-! ## Real-time sleeps and delays

`TIMER_FREQ` is defined in `devices/timer.h`, which is not among the sources; it is a
parameter of the routines that use it.  `timer.c` refuses to compile unless
`19 ≤ TIMER_FREQ ≤ 1000`. -/

/-- `busy_wait`: spins `loops` times (not at all when `loops ≤ 0`).  It changes no
variable of `timer.c`; the call is recorded. -/
def busy_wait (loops : Int) (s : TimerState) : TimerState :=
  emit (Event.busy_wait loops) s

/-- The argument that `real_time_delay` gives to `busy_wait`:
`loops_per_tick * num / 1000 * TIMER_FREQ / (denom / 1000)`, evaluated left to right in
`int64_t`, with `denom / 1000` evaluated in `int32_t`. -/
def real_time_loops (TIMER_FREQ : Nat) (loops_per_tick : Nat) (num denom : Int) : Int :=
  int64_div
    (int64_mul (int64_div (int64_mul (loops_per_tick : Int) num) 1000) TIMER_FREQ)
    (Int.tdiv denom 1000)

/-- `real_time_delay`: busy-waits for approximately `num / denom` seconds. -/
def real_time_delay (TIMER_FREQ : Nat) (num denom : Int) (s : TimerState) : Outcome :=
  if Int.tmod denom 1000 = 0 then
    if Int.tdiv denom 1000 = 0 then Outcome.divide_error s
    else
      Outcome.returned
        (busy_wait (real_time_loops TIMER_FREQ s.loops_per_tick num denom) s)
  else Outcome.panic s

/-- The tick count that `real_time_sleep` computes: `num * TIMER_FREQ / denom` in
`int64_t`, rounding toward zero. -/
def real_time_ticks (TIMER_FREQ : Nat) (num denom : Int) : Int :=
  int64_div (int64_mul num TIMER_FREQ) denom

/-- `real_time_sleep`: sleeps for approximately `num / denom` seconds. -/
def real_time_sleep (TIMER_FREQ : Nat) (cur : Nat) (num denom : Int) (s : TimerState) :
    Outcome :=
  if denom = 0 then Outcome.divide_error s
  else
    let ticks := real_time_ticks TIMER_FREQ num denom
    if intr_get_level s = intr_level.INTR_ON then
      if ticks > 0 then timer_sleep cur ticks s
      else real_time_delay TIMER_FREQ num denom s
    else Outcome.panic s

/-- `timer_msleep`: sleeps for approximately `ms` milliseconds. -/
def timer_msleep (TIMER_FREQ : Nat) (cur : Nat) (ms : Int) (s : TimerState) : Outcome :=
  real_time_sleep TIMER_FREQ cur ms 1000 s

/-- `timer_usleep`: sleeps for approximately `us` microseconds. -/
def timer_usleep (TIMER_FREQ : Nat) (cur : Nat) (us : Int) (s : TimerState) : Outcome :=
  real_time_sleep TIMER_FREQ cur us (1000 * 1000) s

/-- `timer_nsleep`: sleeps for approximately `ns` nanoseconds. -/
def timer_nsleep (TIMER_FREQ : Nat) (cur : Nat) (ns : Int) (s : TimerState) : Outcome :=
  real_time_sleep TIMER_FREQ cur ns (1000 * 1000 * 1000) s

/-- `timer_mdelay`: busy-waits for approximately `ms` milliseconds. -/
def timer_mdelay (TIMER_FREQ : Nat) (ms : Int) (s : TimerState) : Outcome :=
  real_time_delay TIMER_FREQ ms 1000 s

/-- `timer_udelay`: busy-waits for approximately `us` microseconds. -/
def timer_udelay (TIMER_FREQ : Nat) (us : Int) (s : TimerState) : Outcome :=
  real_time_delay TIMER_FREQ us (1000 * 1000) s

/-- `timer_ndelay`: busy-waits for approximately `ns` nanoseconds. -/
def timer_ndelay (TIMER_FREQ : Nat) (ns : Int) (s : TimerState) : Outcome :=
  real_time_delay TIMER_FREQ ns (1000 * 1000 * 1000) s

/-- `timer_print_stats`: prints the number of ticks. -/
def timer_print_stats (s : TimerState) : TimerState :=
  let r := timer_ticks s
  emit (Event.printf (Msg.timer_stats r.1)) r.2

/-! ## Calibration

Whether a loop of a given length takes more than one timer tick depends on the speed of
the machine and on the moment at which the timer interrupts arrive: `too_many_loops`
waits for a tick, runs `busy_wait (loops)` and reports whether `ticks` changed
meanwhile.  Its answers are a parameter `tml` of the calibration routine: `tml i loops`
is the answer of the call number `i` (counting from 0 over the whole trace) when it is
asked about `loops` iterations.  An oracle that ignores `i` is deterministic.  The timer
interrupts that arrive while a measurement runs are operations of their own and are not
part of `timer_calibrate`. -/

/-- Number of `too_many_loops` calls recorded in a trace. -/
def trials (tr : List Event) : Nat :=
  tr.countP (fun e => match e with
    | Event.too_many_loops _ _ => true
    | _ => false)

/-- `too_many_loops`: true if `loops` iterations wait for more than one timer tick.
The answer is the oracle's; the call is recorded with its answer. -/
def too_many_loops (tml : Nat → Nat → Bool) (loops : Nat) (s : TimerState) :
    Bool × TimerState :=
  (tml (trials s.trace) loops,
   emit (Event.too_many_loops loops (tml (trials s.trace) loops)) s)

/-- The `while` loop of `timer_calibrate`: doubles `loops_per_tick` (an `unsigned`) for
as long as twice its value is not too many loops, and asserts after each doubling that
the value is not 0. -/
def calibrate_double (tml : Nat → Nat → Bool) : Nat → TimerState → Outcome
  | 0, _ => Outcome.out_of_fuel
  | fuel + 1, s =>
    let r := too_many_loops tml (uint32_wrap (s.loops_per_tick <<< 1)) s
    if r.1 then Outcome.returned r.2
    else
      let s1 : TimerState :=
        { r.2 with loops_per_tick := uint32_wrap (r.2.loops_per_tick <<< 1) }
      if s1.loops_per_tick ≠ 0 then calibrate_double tml fuel s1
      else Outcome.panic s1

/-- The body of the `for` loop of `timer_calibrate` for the bit `test_bit`. -/
def refine_bit (tml : Nat → Nat → Bool) (test_bit : Nat) (s : TimerState) : TimerState :=
  let r := too_many_loops tml (s.loops_per_tick ||| test_bit) s
  if r.1 then r.2
  else { r.2 with loops_per_tick := r.2.loops_per_tick ||| test_bit }

/-- The `for` loop of `timer_calibrate`, entered with `test_bit = high_bit >> 1`. -/
def calibrate_refine (tml : Nat → Nat → Bool) (high_bit : Nat) :
    Nat → Nat → TimerState → Outcome
  | 0, _, _ => Outcome.out_of_fuel
  | fuel + 1, test_bit, s =>
    if test_bit ≠ high_bit >>> 10 then
      calibrate_refine tml high_bit fuel (test_bit >>> 1) (refine_bit tml test_bit s)
    else Outcome.returned s

/-- `timer_calibrate`: calibrates `loops_per_tick`.  `fuel` bounds the number of
iterations of each of its two loops. -/
def timer_calibrate (TIMER_FREQ : Nat) (tml : Nat → Nat → Bool) (fuel : Nat)
    (s : TimerState) : Outcome :=
  if intr_get_level s = intr_level.INTR_ON then
    let s1 := emit (Event.printf Msg.calibrating) s
    let s2 := { s1 with loops_per_tick := uint32_wrap (1 <<< 10) }
    match calibrate_double tml fuel s2 with
    | Outcome.returned s3 =>
      match calibrate_refine tml s3.loops_per_tick fuel (s3.loops_per_tick >>> 1) s3 with
      | Outcome.returned s4 =>
        Outcome.returned
          (emit (Event.printf (Msg.loops_per_s (s4.loops_per_tick * TIMER_FREQ % 2 ^ 64))) s4)
      | o => o
    | o => o
  else Outcome.panic s

/-- The `too_many_loops` calls of a trace with their answers, oldest first. -/
def trial_log (tr : List Event) : List (Nat × Bool) :=
  tr.filterMap (fun e => match e with
    | Event.too_many_loops loops r => some (loops, r)
    | _ => none)

/-- The loop length of the trial number `i` (from 0) of the doubling loop when the loop
is entered with `loops_per_tick = 2 ^ k`. -/
def double_trial (k i : Nat) : Nat := uint32_wrap (2 ^ (k + 1 + i))

/-- The calls of a doubling loop that is entered with `loops_per_tick = 2 ^ k` and sees
`j` trials fit. -/
def double_fits (k j : Nat) : List Event :=
  (List.range j).map (fun i => Event.too_many_loops (double_trial k i) false)

/-- The bits that the `for` loop of `timer_calibrate` tests when `high_bit = 2 ^ k`,
in the order of the tests. -/
def refine_bits (k : Nat) : List Nat := (List.range 9).map (fun i => 2 ^ (k - 1 - i))

/-- The state after the first `i` tests of the `for` loop of `timer_calibrate` when
`high_bit = 2 ^ k`. -/
def refine_upto (tml : Nat → Nat → Bool) (k i : Nat) (s : TimerState) : TimerState :=
  ((refine_bits k).take i).foldl (fun st test_bit => refine_bit tml test_bit st) s

/-- The state at the end of the doubling loop of `timer_calibrate`, called in the state
`s`, when the trial number `j` (from 0) is the first that is too many loops. -/
def after_double (s : TimerState) (j : Nat) : TimerState :=
  { s with
    loops_per_tick := 2 ^ (10 + j)
    trace := s.trace ++ (Event.printf Msg.calibrating ::
      (double_fits 10 j ++ [Event.too_many_loops (double_trial 10 j) true])) }

/-- The calls that `timer_calibrate` has added to the trace `tr0` in the trace `tr`. -/
def new_trials (tr0 tr : List Event) : List (Nat × Bool) :=
  trial_log (tr.drop tr0.length)

/-! ## Runs -/

/-- The two operations that change the sleep list. -/
inductive Op where
  | sleep (cur : Nat) (ticks : Int)
  | interrupt

/-- Effect of one operation. -/
def step (s : TimerState) : Op → TimerState
  | Op.sleep cur ticks => thread_sleep cur ticks s
  | Op.interrupt => timer_interrupt s

/-- Effect of a sequence of operations, first to last. -/
def run (s : TimerState) (ops : List Op) : TimerState := ops.foldl step s

/-- The threads signalled (`sema_up`) in a trace, in the order of the calls. -/
def signalled (tr : List Event) : List thread :=
  tr.filterMap (fun e => match e with
    | Event.sema_up t => some t
    | _ => none)

/-- The sleep list is in ascending order of wake tick. -/
def sorted_by_wake (l : List thread) : Prop :=
  l.Pairwise (fun a b => a.sleep_ticks ≤ b.sleep_ticks)

instance (l : List thread) : Decidable (sorted_by_wake l) := by
  unfold sorted_by_wake; infer_instance

/-- The test of the handler: the thread is due at tick `T`. -/
def due (T : Int) (t : thread) : Bool := decide (T ≥ t.sleep_ticks)

/-- The threads signalled by the handler when it runs in the state `s`: the `sema_up`
calls among the calls that the handler adds to the trace. -/
def woken_by_interrupt (s : TimerState) : List thread :=
  signalled ((timer_interrupt s).trace.drop s.trace.length)

/-- Number of timer interrupts in a sequence of operations. -/
def interrupts : List Op → Nat
  | [] => 0
  | Op.sleep _ _ :: ops => interrupts ops
  | Op.interrupt :: ops => interrupts ops + 1

/-- The values of the tick counter at which the dispatches of a sequence of operations
happen, first to last: for every timer interrupt of the sequence, the value that the
handler's increment reaches. -/
def dispatch_ticks (s : TimerState) : List Op → List Int
  | [] => []
  | Op.sleep cur ticks :: ops => dispatch_ticks (thread_sleep cur ticks s) ops
  | Op.interrupt :: ops => (timer_interrupt s).ticks :: dispatch_ticks (timer_interrupt s) ops

/-- The calls made by the `while` loop of the handler when it runs at tick `T` and
interrupt level `lv` on the list given. -/
def wake_events (T : Int) (lv : intr_level) : List thread → List Event
  | [] => []
  | t :: rest =>
    if due T t then
      [Event.printf (Msg.ticks T), Event.printf (Msg.tickers t.sleep_ticks),
       Event.printf Msg.wake_up, Event.printf Msg.prev, Event.printf Msg.next,
       Event.sema_up t, Event.intr_disable, Event.intr_set_level lv] ++
      rest.map (fun u => Event.printf (Msg.woke_up u.tid)) ++ wake_events T lv rest
    else []

/-! ## Observations on traces -/

/-- The calls that a routine has added to the trace `tr0` in the trace `tr`. -/
def new_events (tr0 tr : List Event) : List Event := tr.drop tr0.length

/-- The `printf` calls of a trace, oldest first. -/
def prints (tr : List Event) : List Msg :=
  tr.filterMap (fun e => match e with
    | Event.printf m => some m
    | _ => none)

/-- Number of `thread_tick` calls in a trace. -/
def thread_ticks (tr : List Event) : Nat := tr.count Event.thread_tick

/-- The threads that have called `sema_down` in a trace, oldest first. -/
def downed (tr : List Event) : List thread :=
  tr.filterMap (fun e => match e with
    | Event.sema_down t => some t
    | _ => none)

/-- The accesses of thread code to shared variables in a trace, oldest first, each with
the interrupt level at which it was made. -/
def accesses (tr : List Event) : List (Shared × intr_level) :=
  tr.filterMap (fun e => match e with
    | Event.access v level => some (v, level)
    | _ => none)

/-- The calls and accesses of one `timer_ticks` call that is entered at level `lv`. -/
def timer_ticks_events (lv : intr_level) : List Event :=
  [Event.intr_disable, Event.access Shared.ticks intr_level.INTR_OFF,
   Event.intr_set_level lv]

/-- The calls and accesses of one `thread_sleep` call that is entered at level `lv` and
records the entry `me`. -/
def thread_sleep_events (lv : intr_level) (me : thread) : List Event :=
  timer_ticks_events lv ++
    [Event.intr_disable, Event.access Shared.sleeping_threads intr_level.INTR_OFF,
     Event.intr_set_level lv, Event.sema_down me]

/-- The counter has not wrapped: it holds a value from 0, its value at boot, to
`INT64_MAX`. -/
def tick_count_ok (s : TimerState) : Prop := 0 ≤ s.ticks ∧ s.ticks ≤ INT64_MAX

instance (s : TimerState) : Decidable (tick_count_ok s) := by
  unfold tick_count_ok; infer_instance

/-! ## Machine arithmetic within range -/

theorem int64_wrap_of_range (x : Int) (h1 : INT64_MIN ≤ x) (h2 : x ≤ INT64_MAX) :
    int64_wrap x = x := by
  unfold INT64_MIN at h1
  unfold INT64_MAX at h2
  unfold int64_wrap
  norm_num at h1 h2 ⊢
  omega

theorem int64_wrap_range (x : Int) : INT64_MIN ≤ int64_wrap x ∧ int64_wrap x ≤ INT64_MAX := by
  unfold INT64_MIN INT64_MAX int64_wrap
  norm_num
  omega

/-- A quotient rounded toward zero lies between zero and the dividend. -/
theorem tdiv_between (a b : Int) (hb : 0 < b) :
    (0 ≤ a → 0 ≤ Int.tdiv a b ∧ Int.tdiv a b ≤ a) ∧
    (a ≤ 0 → a ≤ Int.tdiv a b ∧ Int.tdiv a b ≤ 0) := by
  constructor
  · intro ha
    rw [Int.tdiv_eq_ediv ha (le_of_lt hb)]
    exact ⟨Int.ediv_nonneg ha (le_of_lt hb), Int.ediv_le_self b ha⟩
  · intro ha
    have hna : 0 ≤ -a := by omega
    have h1 : Int.tdiv a b = -(Int.tdiv (-a) b) := by
      rw [Int.neg_tdiv, neg_neg]
    rw [h1, Int.tdiv_eq_ediv hna (le_of_lt hb)]
    have h2 := Int.ediv_nonneg hna (le_of_lt hb)
    have h3 := Int.ediv_le_self b hna
    constructor <;> omega

/-- Below `INT64_MAX` the increment of the counter is the increment of the integers. -/
theorem int64_add_one (t : Int) (h0 : INT64_MIN ≤ t) (h1 : t < INT64_MAX) :
    int64_add t 1 = t + 1 := by
  unfold int64_add
  exact int64_wrap_of_range _ (by omega) (by omega)

/-- At `INT64_MAX` the increment of the counter wraps to `INT64_MIN`. -/
theorem int64_add_one_max : int64_add INT64_MAX 1 = INT64_MIN := by decide

/-! ## Basic facts about the collaborators -/


@[simp] theorem emit_ticks (e : Event) (s : TimerState) : (emit e s).ticks = s.ticks := rfl

@[simp] theorem emit_sleeping (e : Event) (s : TimerState) :
    (emit e s).sleeping_threads = s.sleeping_threads := rfl

@[simp] theorem emit_loops (e : Event) (s : TimerState) :
    (emit e s).loops_per_tick = s.loops_per_tick := rfl

@[simp] theorem emit_level (e : Event) (s : TimerState) : (emit e s).level = s.level := rfl

@[simp] theorem emit_trace (e : Event) (s : TimerState) :
    (emit e s).trace = s.trace ++ [e] := rfl

theorem signalled_append (a b : List Event) :
    signalled (a ++ b) = signalled a ++ signalled b := by
  simp [signalled, List.filterMap_append]

theorem foldl_emit (f : thread → Event) (l : List thread) (s : TimerState) :
    l.foldl (fun acc t => emit (f t) acc) s = { s with trace := s.trace ++ l.map f } := by
  induction l generalizing s with
  | nil => simp
  | cons a l ih =>
    rw [List.foldl_cons, ih]
    simp [emit, List.append_assoc]

theorem signalled_map_printf (g : thread → Msg) (l : List thread) :
    signalled (l.map (fun t => Event.printf (g t))) = [] := by
  induction l with
  | nil => rfl
  | cons a l ih =>
    simp only [List.map_cons]
    have h : signalled (Event.printf (g a) :: l.map (fun t => Event.printf (g t)))
        = signalled (l.map (fun t => Event.printf (g t))) := by
      simp [signalled, List.filterMap_cons]
    rw [h, ih]

/-- Closed form of the loop body of the handler. -/
theorem wake_front_eq (t : thread) (rest : List thread) (s : TimerState) :
    wake_front t rest s =
      { ticks := s.ticks
        sleeping_threads := rest
        loops_per_tick := s.loops_per_tick
        level := s.level
        trace := s.trace ++
          [Event.printf (Msg.ticks s.ticks), Event.printf (Msg.tickers t.sleep_ticks),
           Event.printf Msg.wake_up, Event.printf Msg.prev, Event.printf Msg.next,
           Event.sema_up t, Event.intr_disable, Event.intr_set_level s.level] ++
          rest.map (fun u => Event.printf (Msg.woke_up u.tid)) } := by
  simp only [wake_front, print_sleepers, foldl_emit]
  simp [intr_disable, intr_set_level, emit, List.append_assoc]

/-- Closed form of the `while` loop of the handler, for a budget that covers the list. -/
theorem wake_loop_eq (fuel : Nat) (s : TimerState) (h : s.sleeping_threads.length ≤ fuel) :
    wake_loop fuel s =
      { s with
        sleeping_threads := s.sleeping_threads.dropWhile (due s.ticks)
        trace := s.trace ++ wake_events s.ticks s.level s.sleeping_threads } := by
  induction fuel generalizing s with
  | zero =>
    have hl : s.sleeping_threads = [] := List.length_eq_zero.mp (Nat.le_zero.mp h)
    cases s
    simp only at hl
    subst hl
    simp [wake_loop, wake_events]
  | succ n ih =>
    obtain ⟨tk, l, lpt, lv, tr⟩ := s
    cases l with
    | nil => simp [wake_loop, wake_events]
    | cons t rest =>
      by_cases hd : tk ≥ t.sleep_ticks
      · have hlen : (wake_front t rest ⟨tk, t :: rest, lpt, lv, tr⟩).sleeping_threads.length ≤ n := by
          rw [wake_front_eq]
          simpa using h
        simp only [wake_loop, hd, if_true]
        rw [ih _ hlen, wake_front_eq]
        simp [wake_events, due, hd, List.dropWhile_cons, List.append_assoc]
      · simp [wake_loop, wake_events, due, hd, List.dropWhile_cons]

/-- More budget than the length of the list does not change what the `while` loop of
the handler does. -/
theorem wake_loop_budget (fuel : Nat) (s : TimerState)
    (h : s.sleeping_threads.length ≤ fuel) :
    wake_loop fuel s = wake_loop s.sleeping_threads.length s := by
  rw [wake_loop_eq fuel s h, wake_loop_eq _ s (le_refl _)]

/-- Closed form of the interrupt handler. -/
theorem timer_interrupt_eq (s : TimerState) :
    timer_interrupt s =
      { ticks := int64_add s.ticks 1
        sleeping_threads := s.sleeping_threads.dropWhile (due (int64_add s.ticks 1))
        loops_per_tick := s.loops_per_tick
        level := s.level
        trace := s.trace ++ wake_events (int64_add s.ticks 1) s.level s.sleeping_threads ++
          [Event.thread_tick] } := by
  unfold timer_interrupt
  simp only []
  rw [wake_loop_eq s.sleeping_threads.length { s with ticks := int64_add s.ticks 1 }
    (le_refl _)]
  simp [emit]

theorem timer_interrupt_ticks (s : TimerState) :
    (timer_interrupt s).ticks = int64_add s.ticks 1 := by
  rw [timer_interrupt_eq]

theorem timer_interrupt_sleeping (s : TimerState) :
    (timer_interrupt s).sleeping_threads =
      s.sleeping_threads.dropWhile (due (timer_interrupt s).ticks) := by
  rw [timer_interrupt_eq]

/-- Closed form of `thread_sleep`. -/
theorem thread_sleep_eq (cur : Nat) (ticks : Int) (s : TimerState) :
    thread_sleep cur ticks s =
      { ticks := s.ticks
        sleeping_threads := list_insert_ordered s.sleeping_threads
          { tid := cur, sleep_ticks := int64_add s.ticks ticks } ticks_compare
        loops_per_tick := s.loops_per_tick
        level := s.level
        trace := s.trace ++
          thread_sleep_events s.level
            { tid := cur, sleep_ticks := int64_add s.ticks ticks } } := by
  simp [thread_sleep, timer_ticks, intr_disable, intr_set_level, read_ticks,
    update_sleeping_threads, access, emit, thread_sleep_events, timer_ticks_events,
    List.append_assoc]

theorem thread_sleep_trace (cur : Nat) (ticks : Int) (s : TimerState) :
    (thread_sleep cur ticks s).trace = s.trace ++
      thread_sleep_events s.level
        { tid := cur, sleep_ticks := int64_add s.ticks ticks } := by
  rw [thread_sleep_eq]

theorem timer_interrupt_trace (s : TimerState) :
    (timer_interrupt s).trace = s.trace ++
      (wake_events (int64_add s.ticks 1) s.level s.sleeping_threads ++
        [Event.thread_tick]) := by
  rw [timer_interrupt_eq, List.append_assoc]

/-- The threads signalled by the loop of the handler are the due front of the list. -/
theorem signalled_wake_events (T : Int) (lv : intr_level) (l : List thread) :
    signalled (wake_events T lv l) = l.takeWhile (due T) := by
  induction l with
  | nil => rfl
  | cons t rest ih =>
    by_cases hd : due T t = true
    · simp only [wake_events, hd, if_true, List.takeWhile_cons]
      rw [signalled_append, signalled_append, ih, signalled_map_printf]
      simp [signalled, List.filterMap_cons]
    · simp [wake_events, hd, List.takeWhile_cons, signalled]

/-! ## Facts about ordered insertion -/


theorem mem_list_insert_ordered {α : Type} (less : α → α → Bool) (l : List α) (x y : α) :
    y ∈ list_insert_ordered l x less ↔ y = x ∨ y ∈ l := by
  induction l with
  | nil => simp [list_insert_ordered]
  | cons e rest ih =>
    unfold list_insert_ordered
    by_cases h : less x e = true
    · simp [h]
    · simp only [h, if_false, List.mem_cons, ih, Bool.false_eq_true]
      tauto

/-- Where the new element goes: behind the longest front part of the list made of
elements that it is not `less` than. -/
theorem list_insert_ordered_eq {α : Type} (less : α → α → Bool) (l : List α) (x : α) :
    list_insert_ordered l x less =
      l.takeWhile (fun e => !less x e) ++ x :: l.dropWhile (fun e => !less x e) := by
  induction l with
  | nil => simp [list_insert_ordered]
  | cons e rest ih =>
    unfold list_insert_ordered
    by_cases h : less x e = true
    · simp [h, List.takeWhile_cons, List.dropWhile_cons]
    · simp [h, List.takeWhile_cons, List.dropWhile_cons, ih]

theorem sorted_list_insert_ordered (l : List thread) (x : thread) (h : sorted_by_wake l) :
    sorted_by_wake (list_insert_ordered l x ticks_compare) := by
  induction l with
  | nil => simp [list_insert_ordered, sorted_by_wake]
  | cons e rest ih =>
    unfold sorted_by_wake at h ih ⊢
    rw [List.pairwise_cons] at h
    unfold list_insert_ordered
    by_cases hc : ticks_compare x e = true
    · have hlt : x.sleep_ticks < e.sleep_ticks := by simpa [ticks_compare] using hc
      simp only [hc, if_true]
      refine List.pairwise_cons.mpr ⟨?_, List.pairwise_cons.mpr h⟩
      intro y hy
      rcases List.mem_cons.mp hy with rfl | hy
      · exact le_of_lt hlt
      · exact le_trans (le_of_lt hlt) (h.1 y hy)
    · have hge : e.sleep_ticks ≤ x.sleep_ticks := by
        have : ¬ x.sleep_ticks < e.sleep_ticks := by simpa [ticks_compare] using hc
        exact not_lt.mp this
      simp only [hc, if_false, Bool.false_eq_true]
      refine List.pairwise_cons.mpr ⟨?_, ih h.2⟩
      intro y hy
      rcases (mem_list_insert_ordered _ _ _ _).mp hy with rfl | hy
      · exact hge
      · exact h.1 y hy

theorem sorted_dropWhile (p : thread → Bool) (l : List thread) (h : sorted_by_wake l) :
    sorted_by_wake (l.dropWhile p) :=
  List.Pairwise.sublist (List.dropWhile_sublist p) h

theorem sorted_thread_sleep (cur : Nat) (ticks : Int) (s : TimerState)
    (h : sorted_by_wake s.sleeping_threads) :
    sorted_by_wake (thread_sleep cur ticks s).sleeping_threads := by
  rw [thread_sleep_eq]
  exact sorted_list_insert_ordered _ _ h

theorem sorted_timer_interrupt (s : TimerState) (h : sorted_by_wake s.sleeping_threads) :
    sorted_by_wake (timer_interrupt s).sleeping_threads := by
  rw [timer_interrupt_eq]
  exact sorted_dropWhile _ _ h

theorem sorted_step (s : TimerState) (op : Op) (h : sorted_by_wake s.sleeping_threads) :
    sorted_by_wake (step s op).sleeping_threads := by
  cases op with
  | sleep cur ticks => exact sorted_thread_sleep cur ticks s h
  | interrupt => exact sorted_timer_interrupt s h

theorem sorted_run (s : TimerState) (ops : List Op) (h : sorted_by_wake s.sleeping_threads) :
    sorted_by_wake (run s ops).sleeping_threads := by
  induction ops generalizing s with
  | nil => exact h
  | cons op ops ih => exact ih (step s op) (sorted_step s op h)

theorem woken_by_interrupt_eq (s : TimerState) :
    woken_by_interrupt s = s.sleeping_threads.takeWhile (due (int64_add s.ticks 1)) := by
  unfold woken_by_interrupt
  rw [timer_interrupt_eq]
  simp only [List.append_assoc, List.drop_left]
  rw [signalled_append, signalled_wake_events]
  simp [signalled]

theorem woken_by_interrupt_eq_ticks (s : TimerState) :
    woken_by_interrupt s = s.sleeping_threads.takeWhile (due (timer_interrupt s).ticks) := by
  rw [timer_interrupt_ticks]
  exact woken_by_interrupt_eq s

/-- In a sorted list, what the handler leaves behind is not due. -/
theorem not_due_of_mem_dropWhile (T : Int) (l : List thread) (h : sorted_by_wake l)
    (x : thread) (hx : x ∈ l.dropWhile (due T)) : T < x.sleep_ticks := by
  induction l with
  | nil => simp at hx
  | cons t rest ih =>
    unfold sorted_by_wake at h ih
    rw [List.pairwise_cons] at h
    by_cases hd : due T t = true
    · rw [List.dropWhile_cons_of_pos hd] at hx
      exact ih h.2 hx
    · rw [List.dropWhile_cons_of_neg hd] at hx
      have ht : T < t.sleep_ticks := by
        have : ¬ T ≥ t.sleep_ticks := by simpa [due] using hd
        exact not_le.mp this
      rcases List.mem_cons.mp hx with rfl | hx
      · exact ht
      · exact lt_of_lt_of_le ht (h.1 x hx)

theorem due_of_mem_takeWhile (T : Int) (l : List thread) (x : thread)
    (hx : x ∈ l.takeWhile (due T)) : x.sleep_ticks ≤ T := by
  have := List.mem_takeWhile_imp hx
  simpa [due] using this

theorem sleep_list_sorted_aux (s0 : TimerState) (ops : List Op) :
    sorted_by_wake (run (timer_init s0) ops).sleeping_threads :=
  sorted_run (timer_init s0) ops (by simp [timer_init, sorted_by_wake])

/-- Every entry that `thread_sleep` has put into the list has an `int64_t` wake tick. -/
theorem sleep_ticks_in_range (s0 : TimerState) (ops : List Op) :
    ∀ x ∈ (run (timer_init s0) ops).sleeping_threads,
      INT64_MIN ≤ x.sleep_ticks ∧ x.sleep_ticks ≤ INT64_MAX := by
  have hgen : ∀ (ops : List Op) (s : TimerState),
      (∀ x ∈ s.sleeping_threads, INT64_MIN ≤ x.sleep_ticks ∧ x.sleep_ticks ≤ INT64_MAX) →
      ∀ x ∈ (run s ops).sleeping_threads,
        INT64_MIN ≤ x.sleep_ticks ∧ x.sleep_ticks ≤ INT64_MAX := by
    intro ops
    induction ops with
    | nil => intro s h; exact h
    | cons op ops ih =>
      intro s h
      apply ih (step s op)
      cases op with
      | sleep cur n =>
        intro x hx
        have hx' : x ∈ (thread_sleep cur n s).sleeping_threads := hx
        rw [thread_sleep_eq] at hx'
        rcases (mem_list_insert_ordered _ _ _ _).mp hx' with rfl | hx'
        · exact int64_wrap_range _
        · exact h x hx'
      | interrupt =>
        intro x hx
        have hx' : x ∈ (timer_interrupt s).sleeping_threads := hx
        rw [timer_interrupt_sleeping] at hx'
        exact h x ((List.dropWhile_sublist _).subset hx')
  exact hgen ops (timer_init s0) (by simp [timer_init])

theorem run_append (s : TimerState) (a b : List Op) : run s (a ++ b) = run (run s a) b := by
  simp [run, List.foldl_append]

/-- In a sorted list the entries due at `T` are exactly a front part. -/
theorem sorted_takeWhile_eq_filter (T : Int) (l : List thread) (h : sorted_by_wake l) :
    l.takeWhile (due T) = l.filter (due T) := by
  induction l with
  | nil => rfl
  | cons t rest ih =>
    unfold sorted_by_wake at h ih
    rw [List.pairwise_cons] at h
    by_cases hd : due T t = true
    · rw [List.takeWhile_cons_of_pos hd, List.filter_cons_of_pos hd, ih h.2]
    · rw [List.takeWhile_cons_of_neg hd, List.filter_cons_of_neg hd]
      symm
      rw [List.filter_eq_nil_iff]
      intro y hy
      have ht : ¬ T ≥ t.sleep_ticks := by simpa [due] using hd
      have := h.1 y hy
      simp only [due, decide_eq_true_eq, ge_iff_le, not_le]
      omega

theorem sorted_dropWhile_eq_filter (T : Int) (l : List thread) (h : sorted_by_wake l) :
    l.dropWhile (due T) = l.filter (fun t => !due T t) := by
  induction l with
  | nil => rfl
  | cons t rest ih =>
    unfold sorted_by_wake at h ih
    rw [List.pairwise_cons] at h
    by_cases hd : due T t = true
    · rw [List.dropWhile_cons_of_pos hd, ih h.2]
      simp [List.filter_cons, hd]
    · rw [List.dropWhile_cons_of_neg hd]
      symm
      rw [List.filter_eq_self]
      intro y hy
      have ht : ¬ T ≥ t.sleep_ticks := by simpa [due] using hd
      rcases List.mem_cons.mp hy with rfl | hy
      · simpa using hd
      · have := h.1 y hy
        simp only [due, Bool.not_eq_true', decide_eq_false_iff_not, ge_iff_le, not_le]
        omega

/-- The comparator of the sleep list sends the new entry behind every entry that is
due at the new entry's wake tick. -/
theorem not_ticks_compare_eq_due (b : thread) :
    (fun e => !ticks_compare b e) = due b.sleep_ticks := by
  funext e
  simp only [ticks_compare, due, ge_iff_le]
  by_cases h : b.sleep_ticks < e.sleep_ticks
  · simp [h, not_le.mpr h]
  · simp [h, not_lt.mp h]

/-- Where `thread_sleep` puts the new entry in a sorted list. -/
theorem sleep_list_insert_split (l : List thread) (b : thread) (h : sorted_by_wake l) :
    list_insert_ordered l b ticks_compare =
        l.takeWhile (due b.sleep_ticks) ++ b :: l.dropWhile (due b.sleep_ticks) ∧
    (∀ e ∈ l.takeWhile (due b.sleep_ticks), e.sleep_ticks ≤ b.sleep_ticks) ∧
    (∀ e ∈ l.dropWhile (due b.sleep_ticks), b.sleep_ticks < e.sleep_ticks) ∧
    (∀ a ∈ l, a.sleep_ticks ≤ b.sleep_ticks → a ∈ l.takeWhile (due b.sleep_ticks)) := by
  refine ⟨?_, ?_, ?_, ?_⟩
  · rw [list_insert_ordered_eq, not_ticks_compare_eq_due]
  · intro e he
    exact due_of_mem_takeWhile _ _ _ he
  · intro e he
    exact not_due_of_mem_dropWhile _ _ h e he
  · intro a ha hle
    rw [sorted_takeWhile_eq_filter _ _ h, List.mem_filter]
    exact ⟨ha, by simpa [due] using hle⟩

theorem sublist_list_insert_ordered {α : Type} (less : α → α → Bool) (l : List α) (x : α) :
    List.Sublist l (list_insert_ordered l x less) := by
  rw [list_insert_ordered_eq]
  conv => lhs; rw [← List.takeWhile_append_dropWhile (fun e => !less x e) l]
  exact List.Sublist.append (List.Sublist.refl _) (List.sublist_cons_self _ _)

/-- Two entries keep their relative order across operations for as long as every
dispatch happens at a tick below their wake ticks. -/
theorem pair_order_kept (a b : thread) (more : List Op) (s : TimerState)
    (hs : sorted_by_wake s.sleeping_threads)
    (hab : List.Sublist [a, b] s.sleeping_threads)
    (hlt : ∀ T ∈ dispatch_ticks s more, T < a.sleep_ticks ∧ T < b.sleep_ticks) :
    List.Sublist [a, b] (run s more).sleeping_threads ∧
    sorted_by_wake (run s more).sleeping_threads := by
  induction more generalizing s with
  | nil => exact ⟨hab, hs⟩
  | cons op more ih =>
    cases op with
    | sleep cur n =>
      have hs1 := sorted_thread_sleep cur n s hs
      have hab1 : List.Sublist [a, b] (thread_sleep cur n s).sleeping_threads := by
        rw [thread_sleep_eq]
        exact List.Sublist.trans hab (sublist_list_insert_ordered _ _ _)
      exact ih (thread_sleep cur n s) hs1 hab1 hlt
    | interrupt =>
      have hT := hlt (timer_interrupt s).ticks (List.mem_cons_self _ _)
      have hs1 := sorted_timer_interrupt s hs
      have hab1 : List.Sublist [a, b] (timer_interrupt s).sleeping_threads := by
        rw [timer_interrupt_sleeping, sorted_dropWhile_eq_filter _ _ hs]
        have hf := List.Sublist.filter (fun t => !due (timer_interrupt s).ticks t) hab
        have ha : due (timer_interrupt s).ticks a = false := by
          simp only [due, decide_eq_false_iff_not, ge_iff_le, not_le]; exact hT.1
        have hb : due (timer_interrupt s).ticks b = false := by
          simp only [due, decide_eq_false_iff_not, ge_iff_le, not_le]; exact hT.2
        simpa [List.filter_cons, ha, hb] using hf
      exact ih (timer_interrupt s) hs1 hab1
        (fun T hT' => hlt T (List.mem_cons_of_mem _ hT'))

theorem signalled_thread_sleep_events (lv : intr_level) (me : thread) :
    signalled (thread_sleep_events lv me) = [] := by
  simp [signalled, thread_sleep_events, timer_ticks_events]

/-- While every dispatch happens at a tick before the wake tick of `x`, the entry `x`
stays in the (sorted) list and is not among the threads signalled. -/
theorem kept_while_not_due (x : thread) (more : List Op) (s : TimerState)
    (hs : sorted_by_wake s.sleeping_threads) (hx : x ∈ s.sleeping_threads)
    (hlt : ∀ T ∈ dispatch_ticks s more, T < x.sleep_ticks) :
    x ∈ (run s more).sleeping_threads ∧
    ∃ ev, (run s more).trace = s.trace ++ ev ∧ x ∉ signalled ev := by
  induction more generalizing s with
  | nil => exact ⟨hx, [], by simp [run], by simp [signalled]⟩
  | cons op more ih =>
    cases op with
    | sleep cur n =>
      have hs1 : sorted_by_wake (thread_sleep cur n s).sleeping_threads :=
        sorted_thread_sleep cur n s hs
      have hx1 : x ∈ (thread_sleep cur n s).sleeping_threads := by
        rw [thread_sleep_eq]
        exact (mem_list_insert_ordered _ _ _ _).mpr (Or.inr hx)
      obtain ⟨hm, ev, hev, hsig⟩ := ih (thread_sleep cur n s) hs1 hx1 hlt
      refine ⟨hm, thread_sleep_events s.level
        { tid := cur, sleep_ticks := int64_add s.ticks n } ++ ev, ?_, ?_⟩
      · show (run (thread_sleep cur n s) more).trace = _
        rw [hev, thread_sleep_trace, List.append_assoc]
      · rw [signalled_append, signalled_thread_sleep_events]
        simpa using hsig
    | interrupt =>
      have hnd : (timer_interrupt s).ticks < x.sleep_ticks :=
        hlt (timer_interrupt s).ticks (List.mem_cons_self _ _)
      rw [timer_interrupt_ticks] at hnd
      have hs1 : sorted_by_wake (timer_interrupt s).sleeping_threads :=
        sorted_timer_interrupt s hs
      have hsplit := (List.takeWhile_append_dropWhile (due (int64_add s.ticks 1))
        s.sleeping_threads)
      have hnot : x ∉ s.sleeping_threads.takeWhile (due (int64_add s.ticks 1)) := by
        intro hmem
        have := due_of_mem_takeWhile _ _ _ hmem
        omega
      have hx1 : x ∈ (timer_interrupt s).sleeping_threads := by
        rw [timer_interrupt_eq]
        rw [← hsplit] at hx
        rcases List.mem_append.mp hx with h | h
        · exact absurd h hnot
        · exact h
      obtain ⟨hm, ev, hev, hsig⟩ := ih (timer_interrupt s) hs1 hx1
        (fun T hT' => hlt T (List.mem_cons_of_mem _ hT'))
      refine ⟨hm, (wake_events (int64_add s.ticks 1) s.level s.sleeping_threads ++
        [Event.thread_tick]) ++ ev, ?_, ?_⟩
      · show (run (timer_interrupt s) more).trace = _
        rw [hev, timer_interrupt_trace, List.append_assoc]
      · rw [signalled_append, signalled_append, signalled_wake_events]
        simp only [List.mem_append, not_or]
        exact ⟨⟨hnot, by simp [signalled]⟩, hsig⟩

/-- A sequence without timer interrupts has no dispatch. -/
theorem dispatch_ticks_of_no_interrupt (s : TimerState) (more : List Op)
    (h : interrupts more = 0) : dispatch_ticks s more = [] := by
  induction more generalizing s with
  | nil => rfl
  | cons op more ih =>
    cases op with
    | sleep cur n => exact ih (thread_sleep cur n s) (by simpa [interrupts] using h)
    | interrupt => simp [interrupts] at h

/-- While the counter stays within the range of `int64_t`, the dispatches of a sequence
happen at the ticks `s.ticks + 1`, ..., `s.ticks + interrupts more`: all of them are
below every tick `W` above `s.ticks + interrupts more`. -/
theorem dispatch_ticks_below (W : Int) (more : List Op) (s : TimerState)
    (h0 : INT64_MIN ≤ s.ticks) (hW : W ≤ INT64_MAX)
    (hlt : interrupts more = 0 ∨ s.ticks + interrupts more < W) :
    ∀ T ∈ dispatch_ticks s more, T < W := by
  induction more generalizing s with
  | nil =>
    intro T hT
    simp [dispatch_ticks] at hT
  | cons op more ih =>
    cases op with
    | sleep cur n =>
      have h1 : (thread_sleep cur n s).ticks = s.ticks := by rw [thread_sleep_eq]
      apply ih (thread_sleep cur n s)
      · rw [h1]; exact h0
      · rw [h1]; simpa [interrupts] using hlt
    | interrupt =>
      have hk : (0 : Int) ≤ interrupts more := Int.natCast_nonneg _
      have hT : s.ticks + 1 + interrupts more < W := by
        rcases hlt with h | h
        · simp [interrupts] at h
        · simp only [interrupts, Nat.cast_add, Nat.cast_one] at h
          omega
      have h1 : (timer_interrupt s).ticks = s.ticks + 1 := by
        rw [timer_interrupt_ticks]
        exact int64_add_one _ h0 (by omega)
      intro T hmem
      rcases List.mem_cons.mp hmem with rfl | hmem
      · omega
      · exact ih (timer_interrupt s) (by rw [h1]; omega) (Or.inr (by rw [h1]; exact hT))
          T hmem

theorem interrupts_append (l m : List Op) :
    interrupts (l ++ m) = interrupts l + interrupts m := by
  induction l with
  | nil => simp [interrupts]
  | cons op l ih =>
    cases op with
    | sleep c k =>
      show interrupts (l ++ m) = interrupts l + interrupts m
      exact ih
    | interrupt =>
      show interrupts (l ++ m) + 1 = interrupts l + 1 + interrupts m
      omega

/-- While the counter stays within the range of `int64_t`, a sequence of operations
adds to it the number of its timer interrupts. -/
theorem run_ticks (s : TimerState) (ops : List Op) (h0 : INT64_MIN ≤ s.ticks)
    (h1 : s.ticks + interrupts ops ≤ INT64_MAX) :
    (run s ops).ticks = s.ticks + interrupts ops := by
  induction ops generalizing s with
  | nil => simp [run, interrupts]
  | cons op ops ih =>
    cases op with
    | sleep cur n =>
      have ht : (thread_sleep cur n s).ticks = s.ticks := by rw [thread_sleep_eq]
      show (run (thread_sleep cur n s) ops).ticks = _
      rw [ih (thread_sleep cur n s) (by rw [ht]; exact h0)
        (by rw [ht]; simpa [interrupts] using h1), ht]
      simp [interrupts]
    | interrupt =>
      have hk : (0 : Int) ≤ interrupts ops := Int.natCast_nonneg _
      simp only [interrupts, Nat.cast_add, Nat.cast_one] at h1
      have ht : (timer_interrupt s).ticks = s.ticks + 1 := by
        rw [timer_interrupt_ticks]
        exact int64_add_one _ h0 (by omega)
      show (run (timer_interrupt s) ops).ticks = _
      rw [ih (timer_interrupt s) (by rw [ht]; omega) (by rw [ht]; omega), ht]
      simp only [interrupts, Nat.cast_add, Nat.cast_one]
      omega

/-- Operations other than the timer interrupt leave the counter as it is. -/
theorem run_ticks_of_no_interrupt (s : TimerState) (ops : List Op)
    (h : interrupts ops = 0) : (run s ops).ticks = s.ticks := by
  induction ops generalizing s with
  | nil => rfl
  | cons op ops ih =>
    cases op with
    | sleep cur n =>
      show (run (thread_sleep cur n s) ops).ticks = _
      rw [ih (thread_sleep cur n s) (by simpa [interrupts] using h), thread_sleep_eq]
    | interrupt => simp [interrupts] at h

/-- While the counter stays within the range of `int64_t`, `N` timer interrupts add
`N` to it. -/
theorem iterate_timer_interrupt_ticks (N : Nat) (s : TimerState) (h0 : INT64_MIN ≤ s.ticks)
    (h1 : s.ticks + N ≤ INT64_MAX) :
    (timer_interrupt^[N] s).ticks = s.ticks + N := by
  induction N generalizing s with
  | zero => simp
  | succ k ih =>
    simp only [Nat.cast_add, Nat.cast_one] at h1
    have hk : (0 : Int) ≤ k := Int.natCast_nonneg _
    have ht : (timer_interrupt s).ticks = s.ticks + 1 := by
      rw [timer_interrupt_ticks]
      exact int64_add_one _ h0 (by omega)
    rw [Function.iterate_succ_apply,
      ih (timer_interrupt s) (by rw [ht]; omega) (by rw [ht]; omega), ht]
    simp only [Nat.cast_add, Nat.cast_one]
    omega

theorem timer_ticks_fst (s : TimerState) : (timer_ticks s).1 = s.ticks := by
  simp [timer_ticks, intr_disable, read_ticks]

theorem timer_ticks_snd (s : TimerState) :
    (timer_ticks s).2 = { s with trace := s.trace ++ timer_ticks_events s.level } := by
  simp [timer_ticks, intr_disable, intr_set_level, read_ticks, access, emit,
    timer_ticks_events]

theorem real_time_delay_returns (TIMER_FREQ : Nat) (num denom : Int) (s : TimerState)
    (hd : denom = 1000 ∨ denom = 1000 * 1000 ∨ denom = 1000 * 1000 * 1000) :
    real_time_delay TIMER_FREQ num denom s =
      Outcome.returned
        (busy_wait (real_time_loops TIMER_FREQ s.loops_per_tick num denom) s) := by
  rcases hd with h | h | h <;> subst h <;>
  · unfold real_time_delay
    rw [if_pos (by decide), if_neg (by decide)]

theorem timer_sleep_eq (cur : Nat) (n : Int) (s : TimerState)
    (h : s.level = intr_level.INTR_ON) :
    timer_sleep cur n s = Outcome.returned (thread_sleep cur n (timer_ticks s).2) := by
  unfold timer_sleep
  simp only []
  rw [if_pos]
  rw [timer_ticks_snd]
  exact h

theorem real_time_sleep_eq (TIMER_FREQ cur : Nat) (x denom : Int) (s : TimerState)
    (h : s.level = intr_level.INTR_ON)
    (hd : denom = 1000 ∨ denom = 1000 * 1000 ∨ denom = 1000 * 1000 * 1000) :
    real_time_sleep TIMER_FREQ cur x denom s =
      if real_time_ticks TIMER_FREQ x denom > 0 then
        timer_sleep cur (real_time_ticks TIMER_FREQ x denom) s
      else real_time_delay TIMER_FREQ x denom s := by
  have hne : denom ≠ 0 := by
    rcases hd with h | h | h <;> subst h <;> decide
  unfold real_time_sleep
  rw [if_neg hne]
  simp only [intr_get_level, h, if_true]

/-! ## Facts about calibration -/


theorem trials_append (a b : List Event) : trials (a ++ b) = trials a + trials b := by
  simp [trials, List.countP_append]

theorem trials_too_many_loops (loops : Nat) (r : Bool) :
    trials [Event.too_many_loops loops r] = 1 := by
  simp [trials]

theorem double_fits_succ (k j : Nat) :
    double_fits k (j + 1) =
      Event.too_many_loops (double_trial k 0) false :: double_fits (k + 1) j := by
  unfold double_fits
  rw [List.range_succ_eq_map, List.map_cons, List.map_map]
  congr 1
  apply List.map_congr_left
  intro i _
  simp only [Function.comp, double_trial]
  congr 3
  omega

theorem double_trial_of_le (k i : Nat) (h : k + 1 + i ≤ 31) :
    double_trial k i = 2 ^ (k + 1 + i) := by
  unfold double_trial uint32_wrap
  apply Nat.mod_eq_of_lt
  exact Nat.pow_lt_pow_right (by norm_num) (by omega)

theorem shl1_two_pow (k : Nat) : uint32_wrap (2 ^ k <<< 1) = double_trial k 0 := by
  simp [double_trial, Nat.shiftLeft_eq, pow_succ]

theorem calibrate_double_step (tml : Nat → Nat → Bool) (fuel k : Nat) (s : TimerState)
    (hl : s.loops_per_tick = 2 ^ k) :
    calibrate_double tml (fuel + 1) s =
      if tml (trials s.trace) (double_trial k 0) = true then
        Outcome.returned
          { s with trace := s.trace ++
              [Event.too_many_loops (double_trial k 0) true] }
      else if double_trial k 0 ≠ 0 then
        calibrate_double tml fuel
          { s with
            loops_per_tick := double_trial k 0
            trace := s.trace ++ [Event.too_many_loops (double_trial k 0) false] }
      else
        Outcome.panic
          { s with
            loops_per_tick := 0
            trace := s.trace ++ [Event.too_many_loops (double_trial k 0) false] } := by
  have h1 : uint32_wrap (s.loops_per_tick <<< 1) = double_trial k 0 := by
    rw [hl]; exact shl1_two_pow k
  by_cases hr : tml (trials s.trace) (double_trial k 0) = true
  · rw [if_pos hr]
    simp only [calibrate_double, too_many_loops, emit, h1, hr, if_true]
  · rw [if_neg hr]
    have hr' : tml (trials s.trace) (double_trial k 0) = false := by simpa using hr
    by_cases hz : double_trial k 0 ≠ 0
    · rw [if_pos hz]
      simp only [calibrate_double, too_many_loops, emit, h1, hr', ne_eq, hz,
        not_false_eq_true, if_true, Bool.false_eq_true, if_false]
    · rw [if_neg hz]
      have hz' : double_trial k 0 = 0 := by simpa using hz
      have hr0 : tml (trials s.trace) 0 = false := by rw [← hz']; exact hr'
      simp only [calibrate_double, too_many_loops, emit, h1, hz', hr0, ne_eq,
        not_true_eq_false, if_false, Bool.false_eq_true]

/-- What the doubling loop does when it is entered with `loops_per_tick = 2 ^ k` and a
budget that covers the `m + 1 = 32 - k` trials that are possible: either some trial `j`
is the first to be too many loops, and the loop ends with `loops_per_tick = 2 ^ (k + j)`
after `j + 1` trials, or all `m + 1` trials fit and the assertion fails with
`loops_per_tick = 0`. -/
theorem calibrate_double_spec (tml : Nat → Nat → Bool) (m : Nat) :
    ∀ (k : Nat) (s : TimerState) (fuel : Nat), k + m + 1 = 32 → s.loops_per_tick = 2 ^ k →
      m + 1 ≤ fuel →
      (∃ j, j ≤ m ∧ (∀ i, i < j → tml (trials s.trace + i) (double_trial k i) = false) ∧
        tml (trials s.trace + j) (double_trial k j) = true ∧
        calibrate_double tml fuel s = Outcome.returned
          { s with
            loops_per_tick := 2 ^ (k + j)
            trace := s.trace ++ (double_fits k j ++
              [Event.too_many_loops (double_trial k j) true]) }) ∨
      ((∀ i, i ≤ m → tml (trials s.trace + i) (double_trial k i) = false) ∧
        calibrate_double tml fuel s = Outcome.panic
          { s with
            loops_per_tick := 0
            trace := s.trace ++ double_fits k (m + 1) }) := by
  induction m with
  | zero =>
    intro k s fuel hk hl hf
    obtain ⟨fuel, rfl⟩ : ∃ f, fuel = f + 1 := ⟨fuel - 1, by omega⟩
    have hk31 : k = 31 := by omega
    subst hk31
    have hz : double_trial 31 0 = 0 := by decide
    rw [calibrate_double_step tml fuel 31 s hl]
    by_cases hr : tml (trials s.trace) (double_trial 31 0) = true
    · left
      refine ⟨0, le_refl _, by intro i hi; omega, by simpa using hr, ?_⟩
      rw [if_pos hr]
      cases s
      simp only at hl
      simp [double_fits, hl]
    · right
      have hr' : tml (trials s.trace) (double_trial 31 0) = false := by simpa using hr
      refine ⟨?_, ?_⟩
      · intro i hi
        have : i = 0 := by omega
        subst this
        simpa using hr'
      · rw [if_neg hr, if_neg (by simp [hz])]
        rfl
  | succ m ih =>
    intro k s fuel hk hl hf
    obtain ⟨fuel, rfl⟩ : ∃ f, fuel = f + 1 := ⟨fuel - 1, by omega⟩
    rw [calibrate_double_step tml fuel k s hl]
    by_cases hr : tml (trials s.trace) (double_trial k 0) = true
    · left
      refine ⟨0, Nat.zero_le _, by intro i hi; omega, by simpa using hr, ?_⟩
      rw [if_pos hr]
      cases s
      simp only at hl
      simp [double_fits, hl]
    · have hr' : tml (trials s.trace) (double_trial k 0) = false := by simpa using hr
      have hdt : double_trial k 0 = 2 ^ (k + 1) := double_trial_of_le k 0 (by omega)
      have hne : double_trial k 0 ≠ 0 := by rw [hdt]; positivity
      rw [if_neg hr, if_pos hne]
      have htr : trials (s.trace ++ [Event.too_many_loops (double_trial k 0) false])
          = trials s.trace + 1 := by
        rw [trials_append, trials_too_many_loops]
      have e1 : ∀ i, double_trial (k + 1) i = double_trial k (i + 1) := by
        intro i
        simp only [double_trial]; congr 2; omega
      rcases ih (k + 1)
          { s with
            loops_per_tick := double_trial k 0
            trace := s.trace ++ [Event.too_many_loops (double_trial k 0) false] }
          fuel (by omega) hdt (by omega) with ⟨j, hj, hfit, hstop, heq⟩ | ⟨hfit, heq⟩
      · left
        refine ⟨j + 1, by omega, ?_, ?_, ?_⟩
        · intro i hi
          rcases Nat.eq_zero_or_pos i with h0 | hpos
          · subst h0; simpa using hr'
          · obtain ⟨i, rfl⟩ : ∃ i', i = i' + 1 := ⟨i - 1, by omega⟩
            have := hfit i (by omega)
            simp only [htr, e1] at this
            rw [show trials s.trace + (i + 1) = trials s.trace + 1 + i by omega]
            exact this
        · simp only [htr, e1] at hstop
          rw [show trials s.trace + (j + 1) = trials s.trace + 1 + j by omega]
          exact hstop
        · rw [heq]
          have e2 : k + 1 + j = k + (j + 1) := by omega
          simp only [double_fits_succ, e1, e2, List.append_assoc, List.singleton_append,
            List.cons_append, List.nil_append]
      · right
        refine ⟨?_, ?_⟩
        · intro i hi
          rcases Nat.eq_zero_or_pos i with h0 | hpos
          · subst h0; simpa using hr'
          · obtain ⟨i, rfl⟩ : ∃ i', i = i' + 1 := ⟨i - 1, by omega⟩
            have := hfit i (by omega)
            simp only [htr, e1] at this
            rw [show trials s.trace + (i + 1) = trials s.trace + 1 + i by omega]
            exact this
        · rw [heq]
          simp only [double_fits_succ k (m + 1), List.append_assoc, List.singleton_append,
            List.cons_append, List.nil_append]

theorem refine_bit_eq (tml : Nat → Nat → Bool) (test_bit : Nat) (s : TimerState) :
    refine_bit tml test_bit s =
      { s with
        loops_per_tick :=
          if tml (trials s.trace) (s.loops_per_tick ||| test_bit) = true then s.loops_per_tick
          else s.loops_per_tick ||| test_bit
        trace := s.trace ++ [Event.too_many_loops (s.loops_per_tick ||| test_bit)
          (tml (trials s.trace) (s.loops_per_tick ||| test_bit))] } := by
  unfold refine_bit too_many_loops
  by_cases h : tml (trials s.trace) (s.loops_per_tick ||| test_bit) = true
  · simp [h, emit]
  · simp [h, emit]

theorem two_pow_shiftRight (k j : Nat) (h : j ≤ k) : 2 ^ k >>> j = 2 ^ (k - j) := by
  rw [Nat.shiftRight_eq_div_pow, Nat.pow_div h (by norm_num)]

/-- The `for` loop, entered at the test number `i` (from 0) with `high_bit = 2 ^ k`,
runs the remaining `n = 9 - i` tests and returns. -/
theorem calibrate_refine_from (tml : Nat → Nat → Bool) (k : Nat) (hk : 10 ≤ k) (n : Nat) :
    ∀ (i : Nat) (s : TimerState) (fuel : Nat), i + n = 9 → n + 1 ≤ fuel →
      calibrate_refine tml (2 ^ k) fuel (2 ^ (k - 1 - i)) s =
        Outcome.returned
          (((List.range' i n).map (fun i => 2 ^ (k - 1 - i))).foldl
            (fun st test_bit => refine_bit tml test_bit st) s) := by
  induction n with
  | zero =>
    intro i s fuel hi hf
    obtain ⟨fuel, rfl⟩ : ∃ f, fuel = f + 1 := ⟨fuel - 1, by omega⟩
    have h9 : i = 9 := by omega
    subst h9
    have : (2 : Nat) ^ (k - 1 - 9) = 2 ^ k >>> 10 := by
      rw [two_pow_shiftRight k 10 hk]
      congr 1
    simp [calibrate_refine, this]
  | succ n ih =>
    intro i s fuel hi hf
    obtain ⟨fuel, rfl⟩ : ∃ f, fuel = f + 1 := ⟨fuel - 1, by omega⟩
    have hne : (2 : Nat) ^ (k - 1 - i) ≠ 2 ^ k >>> 10 := by
      rw [two_pow_shiftRight k 10 hk]
      intro h
      have := Nat.pow_right_injective (le_refl 2) h
      omega
    have hshift : (2 : Nat) ^ (k - 1 - i) >>> 1 = 2 ^ (k - 1 - (i + 1)) := by
      rw [two_pow_shiftRight _ 1 (by omega)]
      congr 1
    rw [List.range'_succ, List.map_cons, List.foldl_cons]
    rw [← ih (i + 1) (refine_bit tml (2 ^ (k - 1 - i)) s) fuel (by omega) (by omega)]
    simp only [calibrate_refine, hne, ne_eq, not_false_eq_true, if_true, hshift]

/-- The `for` loop of `timer_calibrate` makes nine tests when `high_bit = 2 ^ k`. -/
theorem calibrate_refine_eq (tml : Nat → Nat → Bool) (k : Nat) (hk : 10 ≤ k)
    (s : TimerState) (fuel : Nat) (hf : 10 ≤ fuel) :
    calibrate_refine tml (2 ^ k) fuel (2 ^ k >>> 1) s =
      Outcome.returned (refine_upto tml k 9 s) := by
  have h1 : (2 : Nat) ^ k >>> 1 = 2 ^ (k - 1 - 0) := by
    rw [two_pow_shiftRight k 1 (by omega)]
    rfl
  rw [h1, calibrate_refine_from tml k hk 9 0 s fuel (by omega) (by omega)]
  unfold refine_upto
  rw [List.take_of_length_le (by simp [refine_bits])]
  unfold refine_bits
  rw [List.range_eq_range']

theorem refine_bits_length (k : Nat) : (refine_bits k).length = 9 := by
  simp [refine_bits]

theorem refine_upto_succ (tml : Nat → Nat → Bool) (k i : Nat) (hi : i < 9) (s : TimerState) :
    refine_upto tml k (i + 1) s = refine_bit tml (2 ^ (k - 1 - i)) (refine_upto tml k i s) := by
  unfold refine_upto
  have hlen : i < (refine_bits k).length := by rw [refine_bits_length]; exact hi
  rw [List.take_succ, List.foldl_append]
  have : (refine_bits k)[i]? = some (2 ^ (k - 1 - i)) := by
    unfold refine_bits
    simp [List.getElem?_map, List.getElem?_range hi]
  rw [this]
  rfl

theorem refine_upto_zero (tml : Nat → Nat → Bool) (k : Nat) (s : TimerState) :
    refine_upto tml k 0 s = s := by
  simp [refine_upto]

theorem refine_upto_lpt_succ (tml : Nat → Nat → Bool) (k i : Nat) (hi : i < 9)
    (s : TimerState) :
    (refine_upto tml k (i + 1) s).loops_per_tick =
      if tml (trials (refine_upto tml k i s).trace)
          ((refine_upto tml k i s).loops_per_tick ||| 2 ^ (k - 1 - i)) = true
      then (refine_upto tml k i s).loops_per_tick
      else (refine_upto tml k i s).loops_per_tick ||| 2 ^ (k - 1 - i) := by
  rw [refine_upto_succ tml k i hi, refine_bit_eq]

theorem refine_upto_trace_succ (tml : Nat → Nat → Bool) (k i : Nat) (hi : i < 9)
    (s : TimerState) :
    (refine_upto tml k (i + 1) s).trace =
      (refine_upto tml k i s).trace ++
        [Event.too_many_loops ((refine_upto tml k i s).loops_per_tick ||| 2 ^ (k - 1 - i))
          (tml (trials (refine_upto tml k i s).trace)
            ((refine_upto tml k i s).loops_per_tick ||| 2 ^ (k - 1 - i)))] := by
  rw [refine_upto_succ tml k i hi, refine_bit_eq]

/-- Setting a bit of a number whose bits from that position down are clear adds the
bit. -/
theorem or_two_pow_of_dvd (x q : Nat) (h : 2 ^ (q + 1) ∣ x) : x ||| 2 ^ q = x + 2 ^ q := by
  obtain ⟨a, rfl⟩ := h
  have hlt : (2 : Nat) ^ q < 2 ^ (q + 1) := Nat.pow_lt_pow_right (by norm_num) (by omega)
  exact (Nat.mul_add_lt_is_or hlt a).symm

/-- Invariant of the `for` loop of `timer_calibrate`, entered with
`loops_per_tick = high_bit = 2 ^ k`: after `i` tests the other variables are as before,
`i` calls were recorded, every tested length is above `high_bit`, every tested length
that fit is at most `loops_per_tick`, `loops_per_tick` is `high_bit` or a tested length
that fit, and the bits of `loops_per_tick` below the last tested bit are clear. -/
theorem refine_upto_inv (tml : Nat → Nat → Bool) (k : Nat) (s : TimerState)
    (hl : s.loops_per_tick = 2 ^ k) (i : Nat) (hi : i ≤ 9) (hk : 10 ≤ k) :
    ∃ ev : List Event,
      (refine_upto tml k i s).trace = s.trace ++ ev ∧
      (refine_upto tml k i s).ticks = s.ticks ∧
      (refine_upto tml k i s).sleeping_threads = s.sleeping_threads ∧
      (refine_upto tml k i s).level = s.level ∧
      ev.length = i ∧ trials ev = i ∧
      (∀ e ∈ ev, ∃ n c, e = Event.too_many_loops n (tml c n) ∧ 2 ^ k < n ∧
        (tml c n = false → n ≤ (refine_upto tml k i s).loops_per_tick)) ∧
      ((refine_upto tml k i s).loops_per_tick = 2 ^ k ∨
        Event.too_many_loops (refine_upto tml k i s).loops_per_tick false ∈ ev) ∧
      2 ^ (k - i) ∣ (refine_upto tml k i s).loops_per_tick ∧
      2 ^ k ≤ (refine_upto tml k i s).loops_per_tick ∧
      (∀ p, p < k - i → (refine_upto tml k i s).loops_per_tick.testBit p = false) := by
  induction i with
  | zero =>
    refine ⟨[], ?_⟩
    rw [refine_upto_zero]
    refine ⟨by simp, rfl, rfl, rfl, rfl, rfl, ?_, Or.inl hl, ?_, ?_, ?_⟩
    · intro e he
      simp at he
    · rw [hl]; exact dvd_refl _
    · rw [hl]
    · intro p hp
      rw [hl, Nat.testBit_two_pow]
      simp
      omega
  | succ i ih =>
    obtain ⟨ev, htr, htk, hsl, hlv, hlen, htrials, hev, hlast, hdvd, hge, hbits⟩ := ih (by omega)
    have hi9 : i < 9 := by omega
    have hq : k - i = (k - 1 - i) + 1 := by omega
    rw [hq] at hdvd
    have hor := or_two_pow_of_dvd _ _ hdvd
    have hpos : 0 < (2 : Nat) ^ (k - 1 - i) := by positivity
    refine ⟨ev ++ [Event.too_many_loops
        ((refine_upto tml k i s).loops_per_tick ||| 2 ^ (k - 1 - i))
        (tml (trials (refine_upto tml k i s).trace)
          ((refine_upto tml k i s).loops_per_tick ||| 2 ^ (k - 1 - i)))], ?_⟩
    have hlpt := refine_upto_lpt_succ tml k i hi9 s
    have hfields : (refine_upto tml k (i + 1) s).ticks = (refine_upto tml k i s).ticks ∧
        (refine_upto tml k (i + 1) s).sleeping_threads
          = (refine_upto tml k i s).sleeping_threads ∧
        (refine_upto tml k (i + 1) s).level = (refine_upto tml k i s).level := by
      rw [refine_upto_succ tml k i hi9, refine_bit_eq]
      exact ⟨rfl, rfl, rfl⟩
    have hmono : (refine_upto tml k i s).loops_per_tick
        ≤ (refine_upto tml k (i + 1) s).loops_per_tick := by
      rw [hlpt]
      split
      · exact le_refl _
      · rw [hor]; omega
    have hdvd2 : (2 : Nat) ^ (k - 1 - i) ∣ (2 : Nat) ^ (k - 1 - i + 1) :=
      pow_dvd_pow 2 (by omega)
    refine ⟨?_, ?_, ?_, ?_, ?_, ?_, ?_, ?_, ?_, ?_, ?_⟩
    · rw [refine_upto_trace_succ tml k i hi9, htr, List.append_assoc]
    · rw [hfields.1, htk]
    · rw [hfields.2.1, hsl]
    · rw [hfields.2.2, hlv]
    · simp [hlen]
    · rw [trials_append, trials_too_many_loops, htrials]
    · intro e he
      rcases List.mem_append.mp he with he | he
      · obtain ⟨n, c, rfl, hn, hfit⟩ := hev e he
        exact ⟨n, c, rfl, hn, fun h => le_trans (hfit h) hmono⟩
      · rw [List.mem_singleton] at he
        refine ⟨_, _, he, ?_, ?_⟩
        · rw [hor]; omega
        · intro hfit
          rw [hlpt, if_neg (by simp [hfit])]
    · by_cases hr : tml (trials (refine_upto tml k i s).trace)
          ((refine_upto tml k i s).loops_per_tick ||| 2 ^ (k - 1 - i)) = true
      · rw [hlpt, if_pos hr]
        rcases hlast with h | h
        · exact Or.inl h
        · exact Or.inr (List.mem_append.mpr (Or.inl h))
      · right
        have hr' : tml (trials (refine_upto tml k i s).trace)
          ((refine_upto tml k i s).loops_per_tick ||| 2 ^ (k - 1 - i)) = false := by
          simpa using hr
        rw [hlpt, if_neg hr]
        apply List.mem_append.mpr
        right
        rw [List.mem_singleton, hr']
    · have hk2 : k - (i + 1) = k - 1 - i := by omega
      rw [hk2, hlpt]
      split
      · exact dvd_trans hdvd2 hdvd
      · rw [hor]
        exact Dvd.dvd.add (dvd_trans hdvd2 hdvd) (dvd_refl _)
    · exact le_trans hge hmono
    · intro p hp
      rw [hlpt]
      split
      · exact hbits p (by omega)
      · rw [Nat.testBit_or, hbits p (by omega), Nat.testBit_two_pow]
        simp
        omega

theorem trials_after_printf (tr : List Event) (m : Msg) :
    trials (tr ++ [Event.printf m]) = trials tr := by
  simp [trials, List.countP_append]

/-- What `timer_calibrate` does with interrupts on and a budget of at least 22: either
the trial number `j` of the doubling loop is the first that is too many loops, and the
routine returns after the nine tests of the refinement loop, or all 22 trials of the
doubling loop fit and the assertion fails with `loops_per_tick = 0`. -/
theorem timer_calibrate_spec (TIMER_FREQ : Nat) (tml : Nat → Nat → Bool) (fuel : Nat)
    (s : TimerState) (hlev : s.level = intr_level.INTR_ON) (hf : 22 ≤ fuel) :
    (∃ j, j ≤ 21 ∧ (∀ i, i < j → tml (trials s.trace + i) (double_trial 10 i) = false) ∧
      tml (trials s.trace + j) (double_trial 10 j) = true ∧
      timer_calibrate TIMER_FREQ tml fuel s = Outcome.returned
        (emit (Event.printf (Msg.loops_per_s
          ((refine_upto tml (10 + j) 9 (after_double s j)).loops_per_tick
            * TIMER_FREQ % 2 ^ 64)))
          (refine_upto tml (10 + j) 9 (after_double s j)))) ∨
    ((∀ i, i ≤ 21 → tml (trials s.trace + i) (double_trial 10 i) = false) ∧
      timer_calibrate TIMER_FREQ tml fuel s = Outcome.panic
        { s with
          loops_per_tick := 0
          trace := s.trace ++ (Event.printf Msg.calibrating :: double_fits 10 22) }) := by
  have hinit : uint32_wrap (1 <<< 10) = 2 ^ 10 := by decide
  have htr : trials (s.trace ++ [Event.printf Msg.calibrating]) = trials s.trace :=
    trials_after_printf _ _
  unfold timer_calibrate
  rw [if_pos (show intr_get_level s = intr_level.INTR_ON from hlev)]
  simp only [emit, hinit]
  rcases calibrate_double_spec tml 21 10
      { s with loops_per_tick := 2 ^ 10, trace := s.trace ++ [Event.printf Msg.calibrating] }
      fuel (by norm_num) rfl (by omega) with ⟨j, hj, hfit, hstop, heq⟩ | ⟨hfit, heq⟩
  · left
    simp only [htr] at hfit hstop
    refine ⟨j, hj, hfit, hstop, ?_⟩
    rw [heq]
    simp only []
    have hs3 : (TimerState.mk s.ticks s.sleeping_threads (2 ^ (10 + j)) s.level
        (s.trace ++ [Event.printf Msg.calibrating] ++
          (double_fits 10 j ++ [Event.too_many_loops (double_trial 10 j) true])))
        = after_double s j := by
      simp [after_double]
    rw [hs3]
    rw [calibrate_refine_eq tml (10 + j) (by omega) _ fuel (by omega)]
  · right
    simp only [htr] at hfit
    refine ⟨hfit, ?_⟩
    rw [heq]
    simp

/-- Bits at and above the position of a test are not changed by the later tests. -/
theorem refine_upto_testBit_kept (tml : Nat → Nat → Bool) (k : Nat) (s : TimerState)
    (i p : Nat) (hp : k - i ≤ p) (hk : 10 ≤ k) (n : Nat) (hn : i + n ≤ 9) :
    (refine_upto tml k (i + n) s).loops_per_tick.testBit p
      = (refine_upto tml k i s).loops_per_tick.testBit p := by
  induction n with
  | zero => rfl
  | succ n ih =>
    rw [← Nat.add_assoc, refine_upto_lpt_succ tml k (i + n) (by omega) s]
    split
    · exact ih (by omega)
    · rw [Nat.testBit_or, ih (by omega), Nat.testBit_two_pow]
      have : ¬ (k - 1 - (i + n) = p) := by omega
      simp [this]

/-! ## What the calibration has observed -/


theorem trial_log_append (a b : List Event) :
    trial_log (a ++ b) = trial_log a ++ trial_log b := by
  simp [trial_log, List.filterMap_append]

theorem trial_log_double_fits (k j : Nat) :
    trial_log (double_fits k j) = (List.range j).map (fun i => (double_trial k i, false)) := by
  induction j with
  | zero => rfl
  | succ j ih =>
    unfold double_fits at ih ⊢
    rw [List.range_succ, List.map_append, List.map_append, trial_log_append, ih]
    rfl

theorem mem_trial_log (l : List Event) (n : Nat) (r : Bool) :
    (n, r) ∈ trial_log l ↔ Event.too_many_loops n r ∈ l := by
  induction l with
  | nil => simp [trial_log]
  | cons e l ih =>
    unfold trial_log at ih ⊢
    cases e <;> simp [List.filterMap_cons, ih]

theorem mem_double_fits (k j : Nat) (e : Event) :
    e ∈ double_fits k j ↔ ∃ i, i < j ∧ e = Event.too_many_loops (double_trial k i) false := by
  unfold double_fits
  simp only [List.mem_map, List.mem_range]
  constructor
  · rintro ⟨i, hi, rfl⟩
    exact ⟨i, hi, rfl⟩
  · rintro ⟨i, hi, rfl⟩
    exact ⟨i, hi, rfl⟩

/-- The calls that a returning `timer_calibrate` has recorded: the trials of the
doubling loop, of which the last one only was too many loops, then the tests of the
refinement loop. -/
theorem mem_new_trials_calibrate (tml : Nat → Nat → Bool) (s : TimerState) (j : Nat)
    (m : Msg) (ev : List Event)
    (htr : (refine_upto tml (10 + j) 9 (after_double s j)).trace
      = (after_double s j).trace ++ ev) (n : Nat) (r : Bool) :
    (n, r) ∈ new_trials s.trace
        (emit (Event.printf m) (refine_upto tml (10 + j) 9 (after_double s j))).trace ↔
      (∃ i, i < j ∧ n = double_trial 10 i ∧ r = false) ∨
      (n = double_trial 10 j ∧ r = true) ∨
      Event.too_many_loops n r ∈ ev := by
  unfold new_trials
  rw [emit_trace, htr]
  have h1 : (after_double s j).trace = s.trace ++ (Event.printf Msg.calibrating ::
      (double_fits 10 j ++ [Event.too_many_loops (double_trial 10 j) true])) := rfl
  rw [h1, List.append_assoc, List.append_assoc, List.drop_left, mem_trial_log]
  have hne1 : (Event.too_many_loops n r = Event.printf Msg.calibrating) = False := by simp
  have hne2 : (Event.too_many_loops n r = Event.printf m) = False := by simp
  simp only [List.mem_append, List.mem_cons, List.not_mem_nil, or_false, mem_double_fits,
    Event.too_many_loops.injEq, hne1, hne2, false_or]
  exact or_assoc

/-- The refinement loop of `timer_calibrate`, entered with
`loops_per_tick = high_bit = 2 ^ k` and a budget of at least 10, returns after exactly
nine trials, one for each of the bits `high_bit >> 1`, ..., `high_bit >> 9` in this
order, whatever the oracle answers; and each of these bits is set in the final
`loops_per_tick` exactly when the trial of the value at that moment with the bit set was
not too many loops. -/
theorem calibrate_refine_nine (tml : Nat → Nat → Bool) (k : Nat) (s : TimerState)
    (fuel : Nat) (hk : 10 ≤ k) (hl : s.loops_per_tick = 2 ^ k) (hf : 10 ≤ fuel) :
    calibrate_refine tml s.loops_per_tick fuel (s.loops_per_tick >>> 1) s
      = Outcome.returned (refine_upto tml k 9 s) ∧
    trials (refine_upto tml k 9 s).trace = trials s.trace + 9 ∧
    (new_trials s.trace (refine_upto tml k 9 s).trace).length = 9 ∧
    (∀ i, i < 9 →
      2 ^ (k - 1 - i) = s.loops_per_tick >>> (i + 1) ∧
      refine_upto tml k (i + 1) s
        = refine_bit tml (2 ^ (k - 1 - i)) (refine_upto tml k i s) ∧
      (refine_upto tml k (i + 1) s).trace = (refine_upto tml k i s).trace ++
        [Event.too_many_loops ((refine_upto tml k i s).loops_per_tick ||| 2 ^ (k - 1 - i))
          (tml (trials (refine_upto tml k i s).trace)
            ((refine_upto tml k i s).loops_per_tick ||| 2 ^ (k - 1 - i)))] ∧
      ((refine_upto tml k 9 s).loops_per_tick.testBit (k - 1 - i) = true ↔
        tml (trials (refine_upto tml k i s).trace)
          ((refine_upto tml k i s).loops_per_tick ||| 2 ^ (k - 1 - i)) = false)) := by
  obtain ⟨ev, htr, _, _, _, hlen, htrials, hev, _, _, _, _⟩ :=
    refine_upto_inv tml k s hl 9 (le_refl _) hk
  refine ⟨?_, ?_, ?_, ?_⟩
  · rw [hl]
    exact calibrate_refine_eq tml k hk s fuel hf
  · rw [htr, trials_append, htrials]
  · unfold new_trials
    rw [htr, List.drop_left]
    have hall : ∀ (l : List Event), (∀ e ∈ l, ∃ n r, e = Event.too_many_loops n r) →
        (trial_log l).length = l.length := by
      intro l
      induction l with
      | nil => intro _; rfl
      | cons e l ih =>
        intro h
        obtain ⟨n, r, rfl⟩ := h e (List.mem_cons_self _ _)
        have := ih (fun e he => h e (List.mem_cons_of_mem _ he))
        simp only [trial_log, List.filterMap_cons, List.length_cons] at this ⊢
        omega
    rw [hall ev, hlen]
    intro e he
    obtain ⟨n, c, rfl, _⟩ := hev e he
    exact ⟨n, _, rfl⟩
  · intro i hi
    refine ⟨?_, refine_upto_succ tml k i hi s, refine_upto_trace_succ tml k i hi s, ?_⟩
    · rw [hl, two_pow_shiftRight k (i + 1) (by omega)]
      congr 1
      omega
    · obtain ⟨_, _, _, _, _, _, _, _, _, _, _, hbits⟩ :=
        refine_upto_inv tml k s hl i (by omega) hk
      have hkept := refine_upto_testBit_kept tml k s (i + 1) (k - 1 - i) (by omega) hk
        (9 - (i + 1)) (by omega)
      rw [show i + 1 + (9 - (i + 1)) = 9 by omega] at hkept
      rw [hkept, refine_upto_lpt_succ tml k i hi s]
      by_cases hr : tml (trials (refine_upto tml k i s).trace)
          ((refine_upto tml k i s).loops_per_tick ||| 2 ^ (k - 1 - i)) = true
      · rw [if_pos hr, hbits (k - 1 - i) (by omega)]
        simp [hr]
      · rw [if_neg hr, Nat.testBit_or, Nat.testBit_two_pow_self]
        simpa using hr

/-! ## Facts about the calls of the handler -/

theorem new_events_append (tr ev : List Event) : new_events tr (tr ++ ev) = ev := by
  simp [new_events]

theorem prints_append (a b : List Event) : prints (a ++ b) = prints a ++ prints b := by
  simp [prints, List.filterMap_append]

theorem thread_ticks_append (a b : List Event) :
    thread_ticks (a ++ b) = thread_ticks a + thread_ticks b := by
  simp [thread_ticks, List.count_append]

theorem downed_append (a b : List Event) : downed (a ++ b) = downed a ++ downed b := by
  simp [downed, List.filterMap_append]

theorem thread_ticks_map_printf (g : thread → Msg) (l : List thread) :
    thread_ticks (l.map (fun t => Event.printf (g t))) = 0 := by
  induction l with
  | nil => rfl
  | cons a l ih =>
    unfold thread_ticks at ih ⊢
    rw [List.map_cons, List.count_cons, ih]
    simp

/-- The loop of the handler does not call `thread_tick`. -/
theorem thread_ticks_wake_events (T : Int) (lv : intr_level) (l : List thread) :
    thread_ticks (wake_events T lv l) = 0 := by
  induction l with
  | nil => rfl
  | cons t rest ih =>
    by_cases hd : due T t = true
    · simp only [wake_events, hd, if_true]
      rw [thread_ticks_append, thread_ticks_append, ih, thread_ticks_map_printf]
      simp [thread_ticks, List.count_cons]
    · simp [wake_events, hd, thread_ticks]

/-- The loop of the handler prints exactly when it wakes a thread. -/
theorem prints_wake_events_eq_nil (T : Int) (lv : intr_level) (l : List thread) :
    prints (wake_events T lv l) = [] ↔ l.takeWhile (due T) = [] := by
  cases l with
  | nil => simp [wake_events, prints]
  | cons t rest =>
    by_cases hd : due T t = true
    · simp [wake_events, hd, prints, List.takeWhile_cons]
    · simp [wake_events, hd, prints, List.takeWhile_cons]

/-- Every call of a doubling loop that fits is a trial. -/
theorem trials_double_fits (k j : Nat) : trials (double_fits k j) = j := by
  induction j with
  | zero => rfl
  | succ j ih =>
    unfold double_fits at ih ⊢
    rw [List.range_succ, List.map_append, trials_append, ih]
    rfl

/-! ## The busy-wait count within range -/

/-- Division of a non-negative `int64_t` by a positive number is the quotient of the
integers. -/
theorem int64_div_of_nonneg (a b : Int) (ha : 0 ≤ a) (ha2 : a ≤ INT64_MAX) (hb : 0 < b) :
    int64_div a b = a / b ∧ 0 ≤ a / b ∧ a / b ≤ a := by
  have h1 := Int.ediv_nonneg ha (le_of_lt hb)
  have h2 := Int.ediv_le_self b ha
  refine ⟨?_, h1, h2⟩
  unfold int64_div
  rw [Int.tdiv_eq_ediv ha (le_of_lt hb)]
  apply int64_wrap_of_range
  · unfold INT64_MIN
    omega
  · omega

/-- A multiplication whose product is a non-negative `int64_t` is the product of the
integers. -/
theorem int64_mul_of_nonneg (a b : Int) (h1 : 0 ≤ a * b) (h2 : a * b ≤ INT64_MAX) :
    int64_mul a b = a * b := by
  unfold int64_mul
  apply int64_wrap_of_range _ _ h2
  unfold INT64_MIN
  omega

/-- The sizes of the intermediate results of `real_time_loops` when the delay is
shorter than one tick and the denominator is a positive `int32_t`. -/
theorem real_time_loops_sizes (TIMER_FREQ lpt : Nat) (num denom : Int)
    (hl : lpt < 2 ^ 32) (hF1 : 19 ≤ TIMER_FREQ) (hF2 : TIMER_FREQ ≤ 1000)
    (hd2 : denom ≤ INT32_MAX) (hn : 0 ≤ num) (hlt : num * TIMER_FREQ < denom) :
    0 ≤ (lpt : Int) * num ∧ (lpt : Int) * num ≤ INT64_MAX ∧
    0 ≤ (lpt : Int) * num / 1000 * TIMER_FREQ ∧
    (lpt : Int) * num / 1000 * TIMER_FREQ ≤ (lpt : Int) * num := by
  have hF1' : (19 : Int) ≤ TIMER_FREQ := by exact_mod_cast hF1
  have hF2' : (TIMER_FREQ : Int) ≤ 1000 := by exact_mod_cast hF2
  have hl' : (lpt : Int) ≤ 2 ^ 32 - 1 := by
    have : (lpt : Int) < 2 ^ 32 := by exact_mod_cast hl
    omega
  have hl0 : (0 : Int) ≤ lpt := Int.ofNat_nonneg _
  unfold INT32_MAX at hd2
  have h19 : num * 19 ≤ num * TIMER_FREQ := mul_le_mul_of_nonneg_left hF1' hn
  have hnum : num ≤ 113025455 := by
    norm_num at hd2
    omega
  have hP0 : 0 ≤ (lpt : Int) * num := mul_nonneg hl0 hn
  have hP1 : (lpt : Int) * num ≤ (2 ^ 32 - 1) * 113025455 :=
    mul_le_mul hl' hnum hn (by norm_num)
  have ha0 : 0 ≤ (lpt : Int) * num / 1000 := Int.ediv_nonneg hP0 (by norm_num)
  have ha1 : (lpt : Int) * num / 1000 * 1000 ≤ (lpt : Int) * num :=
    Int.ediv_mul_le _ (by norm_num)
  have haF : (lpt : Int) * num / 1000 * TIMER_FREQ ≤ (lpt : Int) * num / 1000 * 1000 :=
    mul_le_mul_of_nonneg_left hF2' ha0
  refine ⟨hP0, ?_, mul_nonneg ha0 (by omega), le_trans haF ha1⟩
  unfold INT64_MAX
  norm_num at hP1 ⊢
  omega

/-- Within those sizes the count computed in `int64_t` is the count computed over the
integers. -/
theorem real_time_loops_exact (TIMER_FREQ lpt : Nat) (num denom : Int)
    (hl : lpt < 2 ^ 32) (hF1 : 19 ≤ TIMER_FREQ) (hF2 : TIMER_FREQ ≤ 1000)
    (hd1 : 1000 ≤ denom) (hd2 : denom ≤ INT32_MAX)
    (hn : 0 ≤ num) (hlt : num * TIMER_FREQ < denom) :
    real_time_loops TIMER_FREQ lpt num denom =
      (lpt : Int) * num / 1000 * TIMER_FREQ / (denom / 1000) ∧
    0 ≤ real_time_loops TIMER_FREQ lpt num denom := by
  obtain ⟨hP0, hP1, hA0, hA1⟩ :=
    real_time_loops_sizes TIMER_FREQ lpt num denom hl hF1 hF2 hd2 hn hlt
  have hD : Int.tdiv denom 1000 = denom / 1000 :=
    Int.tdiv_eq_ediv (by omega) (by norm_num)
  have hDpos : 0 < denom / 1000 := by omega
  unfold real_time_loops
  rw [int64_mul_of_nonneg _ _ hP0 hP1,
    (int64_div_of_nonneg _ 1000 hP0 hP1 (by norm_num)).1,
    int64_mul_of_nonneg _ _ hA0 (le_trans hA1 hP1), hD]
  have h := int64_div_of_nonneg _ (denom / 1000) hA0 (le_trans hA1 hP1) hDpos
  rw [h.1]
  exact ⟨rfl, h.2.1⟩

/-- A quotient of the integers that is 0 with a positive divisor: the dividend is below
the divisor. -/
theorem lt_of_ediv_eq_zero (a b : Int) (hb : 0 < b) (h : a / b = 0) : a < b := by
  have h1 := Int.emod_add_ediv a b
  have h2 := Int.emod_lt_of_pos a hb
  rw [h, mul_zero, add_zero] at h1
  omega

/-! ## The claims -/

/-- C1: starting from the empty sleep list that `timer_init` creates, after every
sequence of `thread_sleep` enqueues and `timer_interrupt` dispatch passes the sleep list
is sorted in ascending order of `sleep_ticks`; stated for the state before and the state
after an arbitrary further operation `op`, so that it holds before and after every
insertion and every dispatch pass. -/
theorem sleep_list_sorted (s0 : TimerState) (ops : List Op) (op : Op) :
    sorted_by_wake (run (timer_init s0) ops).sleeping_threads ∧
    sorted_by_wake (step (run (timer_init s0) ops) op).sleeping_threads := by
  have h0 : sorted_by_wake (timer_init s0).sleeping_threads := by
    simp [timer_init, sorted_by_wake]
  have h1 := sorted_run (timer_init s0) ops h0
  exact ⟨h1, sorted_step _ op h1⟩

/-- C2: for every sorted sleep list, one pass of `timer_interrupt` at the tick `T` that
its increment reaches (`T` is the counter after `ticks++`, an `int64_t` increment, so
`T = ticks + 1` below `INT64_MAX`) signals exactly the longest front part of the list
whose entries have wake tick `≤ T`, in list order and each once, removes exactly those
entries, and leaves the other entries as they were, in their order and still sorted; no
entry left behind is due. -/
theorem dispatch_wakes_due_front (s : TimerState) (h : sorted_by_wake s.sleeping_threads) :
    (timer_interrupt s).ticks = int64_add s.ticks 1 ∧
    (INT64_MIN ≤ s.ticks ∧ s.ticks < INT64_MAX → (timer_interrupt s).ticks = s.ticks + 1) ∧
    signalled (timer_interrupt s).trace =
      signalled s.trace ++ s.sleeping_threads.takeWhile (due (timer_interrupt s).ticks) ∧
    woken_by_interrupt s = s.sleeping_threads.takeWhile (due (timer_interrupt s).ticks) ∧
    s.sleeping_threads = woken_by_interrupt s ++ (timer_interrupt s).sleeping_threads ∧
    (∀ t ∈ woken_by_interrupt s, t.sleep_ticks ≤ (timer_interrupt s).ticks) ∧
    (∀ t ∈ (timer_interrupt s).sleeping_threads,
      (timer_interrupt s).ticks < t.sleep_ticks) ∧
    sorted_by_wake (timer_interrupt s).sleeping_threads := by
  have hT := timer_interrupt_ticks s
  refine ⟨hT, ?_, ?_, ?_, ?_, ?_, ?_, sorted_timer_interrupt s h⟩
  · intro hr
    rw [hT]
    exact int64_add_one _ hr.1 hr.2
  · rw [hT, timer_interrupt_eq]
    simp only [signalled_append, signalled_wake_events]
    simp [signalled]
  · rw [hT]
    exact woken_by_interrupt_eq s
  · rw [woken_by_interrupt_eq, timer_interrupt_eq]
    exact (List.takeWhile_append_dropWhile _ _).symm
  · intro t ht
    rw [woken_by_interrupt_eq] at ht
    rw [hT]
    exact due_of_mem_takeWhile _ _ _ ht
  · intro t ht
    rw [timer_interrupt_sleeping] at ht
    exact not_due_of_mem_dropWhile _ _ h t ht

/-- Scenario of C2: at tick 0 thread 2 asks for 3 ticks, then thread 1 asks for 5 ticks;
the list is `[2 → 3, 1 → 5]`, the dispatch at tick 3 wakes thread 2 only, the dispatch
at tick 5 wakes thread 1 only, and over the five interrupts exactly these two are
signalled, in this order. -/
theorem dispatch_wakes_due_front_scenario :
    sorted_by_wake [(⟨2, 3⟩ : thread), ⟨1, 5⟩] ∧
    (run ⟨0, [], 0, intr_level.INTR_ON, []⟩ [Op.sleep 2 3, Op.sleep 1 5]).sleeping_threads
      = [⟨2, 3⟩, ⟨1, 5⟩] ∧
    woken_by_interrupt ⟨2, [⟨2, 3⟩, ⟨1, 5⟩], 0, intr_level.INTR_ON, []⟩
      = List.takeWhile (due 3) [⟨2, 3⟩, ⟨1, 5⟩] ∧
    List.takeWhile (due 3) [(⟨2, 3⟩ : thread), ⟨1, 5⟩] = [⟨2, 3⟩] ∧
    (timer_interrupt ⟨2, [⟨2, 3⟩, ⟨1, 5⟩], 0, intr_level.INTR_ON, []⟩).sleeping_threads
      = [⟨1, 5⟩] ∧
    woken_by_interrupt ⟨3, [⟨1, 5⟩], 0, intr_level.INTR_ON, []⟩ = [] ∧
    woken_by_interrupt ⟨4, [⟨1, 5⟩], 0, intr_level.INTR_ON, []⟩ = [⟨1, 5⟩] ∧
    signalled (run ⟨0, [], 0, intr_level.INTR_ON, []⟩
      [Op.sleep 2 3, Op.sleep 1 5, Op.interrupt, Op.interrupt, Op.interrupt,
       Op.interrupt, Op.interrupt]).trace = [⟨2, 3⟩, ⟨1, 5⟩] :=
  ⟨by decide, by decide,
   (dispatch_wakes_due_front ⟨2, [⟨2, 3⟩, ⟨1, 5⟩], 0, intr_level.INTR_ON, []⟩
      (by decide)).2.2.2.1,
   by decide, by decide, by decide, by decide, by decide⟩

/-- C3: in every run of enqueues and timer interrupts from `timer_init`, for a request
`x` that is in the sleep list: no dispatch signals a request at a tick below that
request's wake tick; a dispatch at a tick below the wake tick of `x` leaves `x` asleep
in the list; enqueues leave it in the list; so through every continuation whose
dispatches all happen below its wake tick `x` is still in the list and has not been
signalled (the ticks of the dispatches are `dispatch_ticks`; while the counter is within
`int64_t` they are the ticks up to `ticks + interrupts more`); and the dispatch at a
tick at or above its wake tick, hence the first such dispatch, signals `x` and removes
it.  The tick of a dispatch is the value of the counter after the handler's `ticks++`. -/
theorem woken_at_first_due_dispatch (s0 : TimerState) (ops : List Op) (x : thread)
    (hx : x ∈ (run (timer_init s0) ops).sleeping_threads) :
    (∀ y ∈ woken_by_interrupt (run (timer_init s0) ops),
      y.sleep_ticks ≤ (timer_interrupt (run (timer_init s0) ops)).ticks) ∧
    ((timer_interrupt (run (timer_init s0) ops)).ticks < x.sleep_ticks →
      x ∉ woken_by_interrupt (run (timer_init s0) ops) ∧
      x ∈ (timer_interrupt (run (timer_init s0) ops)).sleeping_threads) ∧
    (∀ cur n, x ∈ (thread_sleep cur n (run (timer_init s0) ops)).sleeping_threads) ∧
    (∀ more : List Op,
      (∀ T ∈ dispatch_ticks (run (timer_init s0) ops) more, T < x.sleep_ticks) →
      x ∈ (run (timer_init s0) (ops ++ more)).sleeping_threads ∧
      x ∉ signalled ((run (timer_init s0) (ops ++ more)).trace.drop
        (run (timer_init s0) ops).trace.length)) ∧
    (INT64_MIN ≤ (run (timer_init s0) ops).ticks →
      ∀ more : List Op,
      (interrupts more = 0 ∨
        (run (timer_init s0) ops).ticks + interrupts more < x.sleep_ticks) →
      x ∈ (run (timer_init s0) (ops ++ more)).sleeping_threads ∧
      x ∉ signalled ((run (timer_init s0) (ops ++ more)).trace.drop
        (run (timer_init s0) ops).trace.length)) ∧
    (x.sleep_ticks ≤ (timer_interrupt (run (timer_init s0) ops)).ticks →
      x ∈ woken_by_interrupt (run (timer_init s0) ops) ∧
      x ∉ (timer_interrupt (run (timer_init s0) ops)).sleeping_threads) := by
  have hs := sleep_list_sorted_aux s0 ops
  have hxr := (sleep_ticks_in_range s0 ops x hx).2
  simp only [run_append]
  generalize run (timer_init s0) ops = s at hx hs ⊢
  have hsplit := List.takeWhile_append_dropWhile (due (timer_interrupt s).ticks)
    s.sleeping_threads
  have hlist := timer_interrupt_sleeping s
  have hkept : ∀ more : List Op, (∀ T ∈ dispatch_ticks s more, T < x.sleep_ticks) →
      x ∈ (run s more).sleeping_threads ∧
      x ∉ signalled ((run s more).trace.drop s.trace.length) := by
    intro more hlt
    obtain ⟨hm, ev, hev, hsig⟩ := kept_while_not_due x more s hs hx hlt
    refine ⟨hm, ?_⟩
    rw [hev, List.drop_left]
    exact hsig
  refine ⟨?_, ?_, ?_, hkept, ?_, ?_⟩
  · intro y hy
    rw [woken_by_interrupt_eq_ticks] at hy
    exact due_of_mem_takeWhile _ _ _ hy
  · intro hlt
    have hnot : x ∉ s.sleeping_threads.takeWhile (due (timer_interrupt s).ticks) := by
      intro hmem
      have := due_of_mem_takeWhile _ _ _ hmem
      omega
    refine ⟨by rw [woken_by_interrupt_eq_ticks]; exact hnot, ?_⟩
    rw [hlist]
    rw [← hsplit] at hx
    rcases List.mem_append.mp hx with h | h
    · exact absurd h hnot
    · exact h
  · intro cur n
    rw [thread_sleep_eq]
    exact (mem_list_insert_ordered _ _ _ _).mpr (Or.inr hx)
  · intro h0 more hlt
    exact hkept more (dispatch_ticks_below x.sleep_ticks more s h0 hxr hlt)
  · intro hdue
    have hnot : x ∉ s.sleeping_threads.dropWhile (due (timer_interrupt s).ticks) := by
      intro hmem
      have := not_due_of_mem_dropWhile _ _ hs x hmem
      omega
    refine ⟨?_, by rw [hlist]; exact hnot⟩
    rw [woken_by_interrupt_eq_ticks]
    rw [← hsplit] at hx
    rcases List.mem_append.mp hx with h | h
    · exact h
    · exact absurd h hnot

/-- Scenario of C3: thread 1 asks at tick 5 for 10 ticks, so its wake tick is 15; the
dispatch at tick 14 signals nobody and leaves it in the list, the dispatch at tick 15
signals it. -/
theorem woken_at_first_due_dispatch_scenario :
    (⟨1, 15⟩ : thread) ∈
      (run (timer_init ⟨5, [], 0, intr_level.INTR_ON, []⟩) [Op.sleep 1 10]).sleeping_threads ∧
    (∀ cur n, (⟨1, 15⟩ : thread) ∈ (thread_sleep cur n
      (run (timer_init ⟨5, [], 0, intr_level.INTR_ON, []⟩) [Op.sleep 1 10])).sleeping_threads) ∧
    (run (timer_init ⟨5, [], 0, intr_level.INTR_ON, []⟩)
      (Op.sleep 1 10 :: List.replicate 8 Op.interrupt)).ticks = 13 ∧
    woken_by_interrupt (run (timer_init ⟨5, [], 0, intr_level.INTR_ON, []⟩)
      (Op.sleep 1 10 :: List.replicate 8 Op.interrupt)) = [] ∧
    (run (timer_init ⟨5, [], 0, intr_level.INTR_ON, []⟩)
      (Op.sleep 1 10 :: List.replicate 9 Op.interrupt)).sleeping_threads = [⟨1, 15⟩] ∧
    woken_by_interrupt (run (timer_init ⟨5, [], 0, intr_level.INTR_ON, []⟩)
      (Op.sleep 1 10 :: List.replicate 9 Op.interrupt)) = [⟨1, 15⟩] ∧
    (run (timer_init ⟨5, [], 0, intr_level.INTR_ON, []⟩)
      (Op.sleep 1 10 :: List.replicate 10 Op.interrupt)).sleeping_threads = [] :=
  ⟨by decide,
   (woken_at_first_due_dispatch ⟨5, [], 0, intr_level.INTR_ON, []⟩ [Op.sleep 1 10] ⟨1, 15⟩
      (by decide)).2.2.1,
   by decide, by decide, by decide, by decide, by decide⟩

/-- C4: stability.  In a run from `timer_init`, let `a` be in the sleep list when thread
`cur` calls `thread_sleep` and gets the same wake tick as `a`.  Then the new entry is
put behind every entry whose wake tick is at most its own, so behind `a` and behind every
other entry with the same wake tick, and in front of the entries that wake later; the two
entries keep this order for as long as every dispatch happens below their wake tick; and
the dispatch that reaches their wake tick signals `a` before the new entry.  The ticks of
the dispatches are those that the handler's `ticks++` reaches (`dispatch_ticks`); while
the counter is within `int64_t` they are the ticks up to `ticks + interrupts more`. -/
theorem equal_wake_tick_fifo (s0 : TimerState) (ops : List Op) (a : thread) (cur : Nat)
    (n : Int) (ha : a ∈ (run (timer_init s0) ops).sleeping_threads)
    (heq : int64_add (run (timer_init s0) ops).ticks n = a.sleep_ticks) :
    (∃ front back : List thread,
      (run (timer_init s0) ops).sleeping_threads = front ++ back ∧
      (thread_sleep cur n (run (timer_init s0) ops)).sleeping_threads
        = front ++ ⟨cur, a.sleep_ticks⟩ :: back ∧
      a ∈ front ∧
      (∀ e ∈ front, e.sleep_ticks ≤ a.sleep_ticks) ∧
      (∀ e ∈ back, a.sleep_ticks < e.sleep_ticks)) ∧
    (∀ more : List Op,
      (∀ T ∈ dispatch_ticks (thread_sleep cur n (run (timer_init s0) ops)) more,
        T < a.sleep_ticks) →
      List.Sublist [a, ⟨cur, a.sleep_ticks⟩]
        (run (thread_sleep cur n (run (timer_init s0) ops)) more).sleeping_threads ∧
      (a.sleep_ticks ≤
          (timer_interrupt (run (thread_sleep cur n (run (timer_init s0) ops)) more)).ticks →
        List.Sublist [a, ⟨cur, a.sleep_ticks⟩]
          (woken_by_interrupt (run (thread_sleep cur n (run (timer_init s0) ops)) more)))) ∧
    (INT64_MIN ≤ (run (timer_init s0) ops).ticks ∧
        (run (timer_init s0) ops).ticks < INT64_MAX →
      ∀ more : List Op,
      (interrupts more = 0 ∨
        (run (timer_init s0) ops).ticks + interrupts more < a.sleep_ticks) →
      List.Sublist [a, ⟨cur, a.sleep_ticks⟩]
        (run (thread_sleep cur n (run (timer_init s0) ops)) more).sleeping_threads ∧
      (a.sleep_ticks ≤ (run (thread_sleep cur n (run (timer_init s0) ops)) more).ticks + 1 →
        List.Sublist [a, ⟨cur, a.sleep_ticks⟩]
          (woken_by_interrupt (run (thread_sleep cur n (run (timer_init s0) ops)) more)))) := by
  have hs := sleep_list_sorted_aux s0 ops
  have har := (sleep_ticks_in_range s0 ops a ha).2
  generalize run (timer_init s0) ops = s at ha heq hs ⊢
  obtain ⟨hins, hfront, hback, hmem⟩ :=
    sleep_list_insert_split s.sleeping_threads ⟨cur, a.sleep_ticks⟩ hs
  have hlist : (thread_sleep cur n s).sleeping_threads =
      s.sleeping_threads.takeWhile (due a.sleep_ticks) ++
        ⟨cur, a.sleep_ticks⟩ :: s.sleeping_threads.dropWhile (due a.sleep_ticks) := by
    rw [thread_sleep_eq]
    simp only []
    rw [heq]
    exact hins
  have hafront : a ∈ s.sleeping_threads.takeWhile (due a.sleep_ticks) :=
    hmem a ha (le_refl _)
  have hpair : List.Sublist [a, ⟨cur, a.sleep_ticks⟩] (thread_sleep cur n s).sleeping_threads := by
    rw [hlist]
    have h1 : List.Sublist [a] (s.sleeping_threads.takeWhile (due a.sleep_ticks)) :=
      List.singleton_sublist.mpr hafront
    have h2 : List.Sublist [(⟨cur, a.sleep_ticks⟩ : thread)]
        (⟨cur, a.sleep_ticks⟩ :: s.sleeping_threads.dropWhile (due a.sleep_ticks)) :=
      List.singleton_sublist.mpr (List.mem_cons_self _ _)
    exact List.Sublist.append h1 h2
  have hs1 := sorted_thread_sleep cur n s hs
  have hst : (thread_sleep cur n s).ticks = s.ticks := by rw [thread_sleep_eq]
  have hgen : ∀ more : List Op,
      (∀ T ∈ dispatch_ticks (thread_sleep cur n s) more, T < a.sleep_ticks) →
      List.Sublist [a, ⟨cur, a.sleep_ticks⟩] (run (thread_sleep cur n s) more).sleeping_threads ∧
      (a.sleep_ticks ≤ (timer_interrupt (run (thread_sleep cur n s) more)).ticks →
        List.Sublist [a, ⟨cur, a.sleep_ticks⟩]
          (woken_by_interrupt (run (thread_sleep cur n s) more))) := by
    intro more hlt
    obtain ⟨h1, h2⟩ := pair_order_kept a ⟨cur, a.sleep_ticks⟩ more _ hs1 hpair
      (fun T hT => ⟨hlt T hT, hlt T hT⟩)
    refine ⟨h1, ?_⟩
    intro hdue
    rw [woken_by_interrupt_eq_ticks, sorted_takeWhile_eq_filter _ _ h2]
    have hf := List.Sublist.filter
      (due (timer_interrupt (run (thread_sleep cur n s) more)).ticks) h1
    have hda : due (timer_interrupt (run (thread_sleep cur n s) more)).ticks a = true := by
      simp only [due, decide_eq_true_eq, ge_iff_le]; exact hdue
    have hdb : due (timer_interrupt (run (thread_sleep cur n s) more)).ticks
        ⟨cur, a.sleep_ticks⟩ = true := by
      simp only [due, decide_eq_true_eq, ge_iff_le]; exact hdue
    simpa [List.filter_cons, hda, hdb] using hf
  refine ⟨⟨_, _, (List.takeWhile_append_dropWhile _ _).symm, hlist, hafront, hfront, hback⟩,
    hgen, ?_⟩
  intro hr more hlt
  have hbelow := dispatch_ticks_below a.sleep_ticks more (thread_sleep cur n s)
    (by rw [hst]; exact hr.1) har (by rw [hst]; exact hlt)
  obtain ⟨h1, h2⟩ := hgen more hbelow
  refine ⟨h1, ?_⟩
  intro hdue
  apply h2
  have hk : (0 : Int) ≤ interrupts more := Int.natCast_nonneg _
  have hbound : s.ticks + interrupts more < INT64_MAX := by
    rcases hlt with h | h
    · rw [h]
      have := hr.2
      simpa using this
    · omega
  have hrt : (run (thread_sleep cur n s) more).ticks = s.ticks + interrupts more := by
    rw [run_ticks _ _ (by rw [hst]; exact hr.1) (by rw [hst]; omega), hst]
  rw [timer_interrupt_ticks, int64_add_one _ (by rw [hrt]; have := hr.1; omega)
    (by rw [hrt]; exact hbound)]
  exact hdue

/-- Scenario of C4: thread 1 and then thread 2 ask at tick 0 for 5 ticks; thread 2 is
put behind thread 1, and the dispatch at tick 5 signals thread 1 first. -/
theorem equal_wake_tick_fifo_scenario :
    (⟨1, 5⟩ : thread) ∈
      (run (timer_init ⟨0, [], 0, intr_level.INTR_ON, []⟩) [Op.sleep 1 5]).sleeping_threads ∧
    int64_add (run (timer_init ⟨0, [], 0, intr_level.INTR_ON, []⟩) [Op.sleep 1 5]).ticks 5
      = (⟨1, 5⟩ : thread).sleep_ticks ∧
    (thread_sleep 2 5
      (run (timer_init ⟨0, [], 0, intr_level.INTR_ON, []⟩) [Op.sleep 1 5])).sleeping_threads
      = [⟨1, 5⟩, ⟨2, 5⟩] ∧
    List.Sublist [(⟨1, 5⟩ : thread), ⟨2, 5⟩]
      (woken_by_interrupt (run (thread_sleep 2 5
        (run (timer_init ⟨0, [], 0, intr_level.INTR_ON, []⟩) [Op.sleep 1 5]))
        (List.replicate 4 Op.interrupt))) ∧
    woken_by_interrupt (run (thread_sleep 2 5
        (run (timer_init ⟨0, [], 0, intr_level.INTR_ON, []⟩) [Op.sleep 1 5]))
        (List.replicate 4 Op.interrupt)) = [⟨1, 5⟩, ⟨2, 5⟩] :=
  ⟨by decide, by decide, by decide,
   ((equal_wake_tick_fifo ⟨0, [], 0, intr_level.INTR_ON, []⟩ [Op.sleep 1 5] ⟨1, 5⟩ 2 5
      (by decide) (by decide)).2.1 (List.replicate 4 Op.interrupt)
      (by decide)).2 (by decide),
   by decide⟩

/-- C5 does not hold as stated.  The counter is an `int64_t` and `timer_interrupt`
increments it with `ticks++`: in the state with `ticks = INT64_MAX` the interrupt makes
it `INT64_MIN`.  The counter has decreased, it is not 1 larger than before, and
`timer_ticks ()` after the interrupt returns less than before it. -/
theorem tick_counter_wraps_at_int64_max :
    (timer_interrupt ⟨INT64_MAX, [], 0, intr_level.INTR_ON, []⟩).ticks = INT64_MIN ∧
    (timer_interrupt ⟨INT64_MAX, [], 0, intr_level.INTR_ON, []⟩).ticks ≠ INT64_MAX + 1 ∧
    (timer_interrupt ⟨INT64_MAX, [], 0, intr_level.INTR_ON, []⟩).ticks
      < (⟨INT64_MAX, [], 0, intr_level.INTR_ON, []⟩ : TimerState).ticks ∧
    (timer_ticks (timer_interrupt ⟨INT64_MAX, [], 0, intr_level.INTR_ON, []⟩)).1
      < (timer_ticks ⟨INT64_MAX, [], 0, intr_level.INTR_ON, []⟩).1 ∧
    (timer_ticks (run ⟨INT64_MAX, [], 0, intr_level.INTR_ON, []⟩ [Op.interrupt])).1
      ≠ (timer_ticks ⟨INT64_MAX, [], 0, intr_level.INTR_ON, []⟩).1
        + interrupts [Op.interrupt] := by
  refine ⟨by decide, by decide, by decide, by decide, by decide⟩

/-- C5, amended.  As long as the counter stays within the range of `int64_t`, that is,
no interrupt arrives at `ticks = INT64_MAX`, the tick counter never decreases: each
`timer_interrupt` increases it by exactly 1; so after `N` interrupts `timer_ticks ()` is
exactly `N` larger than before, also when enqueues happen in between.  Without any
condition, `timer_interrupt` sets the counter to the `int64_t` successor of its value,
and `timer_ticks`, `timer_elapsed`, `thread_sleep` and the busy-delay functions (which
always return) leave it as it is. -/
theorem tick_counter_counts_interrupts (TIMER_FREQ : Nat) (s : TimerState) (cur : Nat)
    (n then_ : Int) (N : Nat) (ops : List Op)
    (h0 : INT64_MIN ≤ s.ticks) (h1 : s.ticks < INT64_MAX)
    (hN : s.ticks + N ≤ INT64_MAX) (hops : s.ticks + interrupts ops ≤ INT64_MAX) :
    (timer_interrupt s).ticks = s.ticks + 1 ∧
    (timer_interrupt s).ticks = int64_add s.ticks 1 ∧
    (timer_ticks s).1 = s.ticks ∧
    (timer_ticks s).2.ticks = s.ticks ∧
    (timer_elapsed then_ s).2.ticks = s.ticks ∧
    (thread_sleep cur n s).ticks = s.ticks ∧
    (∃ s1, timer_mdelay TIMER_FREQ n s = Outcome.returned s1 ∧ s1.ticks = s.ticks) ∧
    (∃ s1, timer_udelay TIMER_FREQ n s = Outcome.returned s1 ∧ s1.ticks = s.ticks) ∧
    (∃ s1, timer_ndelay TIMER_FREQ n s = Outcome.returned s1 ∧ s1.ticks = s.ticks) ∧
    (timer_ticks (timer_interrupt^[N] s)).1 = (timer_ticks s).1 + N ∧
    (timer_ticks (run s ops)).1 = (timer_ticks s).1 + interrupts ops ∧
    s.ticks ≤ (run s ops).ticks ∧
    (∀ a b : List Op, ops = a ++ b → (run s a).ticks ≤ (run s ops).ticks) := by
  refine ⟨?_, timer_interrupt_ticks s, timer_ticks_fst s, by rw [timer_ticks_snd],
    by simp [timer_elapsed, timer_ticks_snd], by rw [thread_sleep_eq], ?_, ?_, ?_, ?_, ?_, ?_,
    ?_⟩
  · rw [timer_interrupt_ticks]
    exact int64_add_one _ h0 h1
  · exact ⟨_, real_time_delay_returns TIMER_FREQ n 1000 s (Or.inl rfl), rfl⟩
  · exact ⟨_, real_time_delay_returns TIMER_FREQ n (1000 * 1000) s (Or.inr (Or.inl rfl)), rfl⟩
  · exact ⟨_, real_time_delay_returns TIMER_FREQ n (1000 * 1000 * 1000) s
      (Or.inr (Or.inr rfl)), rfl⟩
  · rw [timer_ticks_fst, timer_ticks_fst, iterate_timer_interrupt_ticks N s h0 hN]
  · rw [timer_ticks_fst, timer_ticks_fst, run_ticks s ops h0 hops]
  · rw [run_ticks s ops h0 hops]
    have : (0 : Int) ≤ interrupts ops := Int.natCast_nonneg _
    omega
  · intro a b hab
    have hsum : interrupts ops = interrupts a + interrupts b := by
      rw [hab, interrupts_append]
    have ha0 : (0 : Int) ≤ interrupts a := Int.natCast_nonneg _
    have hb0 : (0 : Int) ≤ interrupts b := Int.natCast_nonneg _
    have hsum' : (interrupts ops : Int) = interrupts a + interrupts b := by
      rw [hsum]
      push_cast
      rfl
    rw [run_ticks s ops h0 hops, run_ticks s a h0 (by omega)]
    omega

/-- Scenario of C5, amended: from tick 5, two interrupts with an enqueue in between
bring `timer_ticks ()` to 7, and three interrupts in a row bring it to 8. -/
theorem tick_counter_counts_interrupts_scenario :
    (INT64_MIN ≤ (5 : Int) ∧ (5 : Int) < INT64_MAX ∧ (5 : Int) + (3 : Nat) ≤ INT64_MAX ∧
      (5 : Int) + interrupts [Op.interrupt, Op.sleep 1 10, Op.interrupt] ≤ INT64_MAX) ∧
    (timer_ticks (run ⟨5, [], 0, intr_level.INTR_ON, []⟩
      [Op.interrupt, Op.sleep 1 10, Op.interrupt])).1 = 7 ∧
    (timer_ticks (timer_interrupt^[3] ⟨5, [], 0, intr_level.INTR_ON, []⟩)).1 = 8 ∧
    (timer_interrupt ⟨5, [], 0, intr_level.INTR_ON, []⟩).ticks
      = (⟨5, [], 0, intr_level.INTR_ON, []⟩ : TimerState).ticks + 1 :=
  ⟨by decide, by decide, by decide,
   (tick_counter_counts_interrupts 100 ⟨5, [], 0, intr_level.INTR_ON, []⟩ 1 0 0 3
      [Op.interrupt, Op.sleep 1 10, Op.interrupt]
      (by decide) (by decide) (by decide) (by decide)).1⟩

/-- C6 does not hold as stated.  `thread_sleep` computes the wake tick `start + ticks` in
`int64_t`.  At tick 5 a sleep of `INT64_MAX = 9223372036854775807` ticks (through
`timer_sleep` with interrupts on) records the wake tick `-9223372036854775804` for the
thread and not `5 + INT64_MAX`; the entry is due at once and the next `timer_interrupt`
wakes the thread. -/
theorem thread_sleep_wake_tick_wraps :
    (thread_sleep 1 INT64_MAX ⟨5, [], 0, intr_level.INTR_ON, []⟩).sleeping_threads
      = [⟨1, -9223372036854775804⟩] ∧
    (5 : Int) + INT64_MAX = 9223372036854775812 ∧
    (⟨1, 5 + INT64_MAX⟩ : thread) ∉
      (thread_sleep 1 INT64_MAX ⟨5, [], 0, intr_level.INTR_ON, []⟩).sleeping_threads ∧
    (∃ s1, timer_sleep 1 INT64_MAX ⟨5, [], 0, intr_level.INTR_ON, []⟩ = Outcome.returned s1 ∧
      s1.sleeping_threads = [⟨1, -9223372036854775804⟩] ∧
      s1.ticks = 5 ∧
      woken_by_interrupt s1 = [⟨1, -9223372036854775804⟩]) := by
  refine ⟨by decide, by decide, by decide, ⟨_, rfl, by decide, by decide, by decide⟩⟩

/-- C6, amended.  For every current tick `t = s.ticks` and duration `n` whose sum `t + n`
is an `int64_t`, `thread_sleep (n)` called by thread `cur` records for it the wake tick
`t + n` and inserts exactly that one entry: the new list is the old list with the new
entry put in at one place, the previous entries kept in their order with their wake
ticks; the counter is not changed.  `timer_sleep (n)` with interrupts on returns after
doing exactly this. -/
theorem thread_sleep_inserts_one (cur : Nat) (n : Int) (s : TimerState)
    (hr : INT64_MIN ≤ s.ticks + n ∧ s.ticks + n ≤ INT64_MAX) :
    int64_add s.ticks n = s.ticks + n ∧
    (∃ front back : List thread,
      s.sleeping_threads = front ++ back ∧
      (thread_sleep cur n s).sleeping_threads
        = front ++ ⟨cur, s.ticks + n⟩ :: back) ∧
    (∀ y, y ∈ (thread_sleep cur n s).sleeping_threads ↔
      y = ⟨cur, s.ticks + n⟩ ∨ y ∈ s.sleeping_threads) ∧
    (thread_sleep cur n s).sleeping_threads.length = s.sleeping_threads.length + 1 ∧
    (thread_sleep cur n s).ticks = s.ticks ∧
    (s.level = intr_level.INTR_ON →
      timer_sleep cur n s = Outcome.returned (thread_sleep cur n (timer_ticks s).2) ∧
      (thread_sleep cur n (timer_ticks s).2).sleeping_threads
        = (thread_sleep cur n s).sleeping_threads ∧
      (thread_sleep cur n (timer_ticks s).2).ticks = s.ticks) := by
  have hadd : int64_add s.ticks n = s.ticks + n := int64_wrap_of_range _ hr.1 hr.2
  have hlist : (thread_sleep cur n s).sleeping_threads =
      list_insert_ordered s.sleeping_threads ⟨cur, s.ticks + n⟩ ticks_compare := by
    rw [thread_sleep_eq, hadd]
  refine ⟨hadd, ⟨_, _, (List.takeWhile_append_dropWhile
    (fun e => !ticks_compare ⟨cur, s.ticks + n⟩ e) s.sleeping_threads).symm, ?_⟩,
    ?_, ?_, ?_, ?_⟩
  · rw [hlist, list_insert_ordered_eq]
  · intro y
    rw [hlist]
    exact mem_list_insert_ordered _ _ _ _
  · rw [hlist, list_insert_ordered_eq]
    have := congrArg List.length
      (List.takeWhile_append_dropWhile
        (fun e => !ticks_compare ⟨cur, s.ticks + n⟩ e) s.sleeping_threads)
    simp only [List.length_append, List.length_cons] at this ⊢
    omega
  · rw [thread_sleep_eq]
  · intro h
    refine ⟨timer_sleep_eq cur n s h, ?_, ?_⟩
    · rw [thread_sleep_eq, thread_sleep_eq, timer_ticks_snd]
    · rw [thread_sleep_eq, timer_ticks_snd]

/-- Scenario of C6, amended: a sleep of 10 ticks issued at tick 5 gets wake tick 15. -/
theorem thread_sleep_inserts_one_scenario :
    (INT64_MIN ≤ (5 : Int) + 10 ∧ (5 : Int) + 10 ≤ INT64_MAX) ∧
    int64_add (⟨5, [⟨7, 9⟩, ⟨8, 20⟩], 0, intr_level.INTR_ON, []⟩ : TimerState).ticks 10
      = 5 + 10 ∧
    (thread_sleep 1 10 ⟨5, [⟨7, 9⟩, ⟨8, 20⟩], 0, intr_level.INTR_ON, []⟩).sleeping_threads
      = [⟨7, 9⟩, ⟨1, 15⟩, ⟨8, 20⟩] :=
  ⟨by decide,
   (thread_sleep_inserts_one 1 10 ⟨5, [⟨7, 9⟩, ⟨8, 20⟩], 0, intr_level.INTR_ON, []⟩
     (by decide)).1,
   by decide⟩

/-- C7 does not hold as stated.  `real_time_sleep` computes `num * TIMER_FREQ / denom` in
`int64_t`.  With `TIMER_FREQ = 100` and interrupts on, `timer_msleep (92233720368547759)`
has the quotient `9223372036854775 ≥ 1` over the integers, but the product does not fit
`int64_t`: the code computes the quotient `-9223372036854775`, takes the busy-wait path
and returns from `real_time_delay` without having enqueued the thread or downed its
semaphore. -/
theorem real_time_sleep_product_wraps :
    (92233720368547759 : Int) ≤ INT64_MAX ∧
    Int.tdiv ((92233720368547759 : Int) * (100 : Nat)) 1000 = 9223372036854775 ∧
    real_time_ticks 100 92233720368547759 1000 = -9223372036854775 ∧
    timer_msleep 100 1 92233720368547759 ⟨0, [], 1000, intr_level.INTR_ON, []⟩
      = real_time_delay 100 92233720368547759 1000 ⟨0, [], 1000, intr_level.INTR_ON, []⟩ ∧
    (∃ s1, timer_msleep 100 1 92233720368547759 ⟨0, [], 1000, intr_level.INTR_ON, []⟩
        = Outcome.returned s1 ∧
      s1.sleeping_threads = [] ∧ downed s1.trace = [] ∧
      (∃ loops, s1.trace = [Event.busy_wait loops])) ∧
    (∃ s2, timer_sleep 1 9223372036854775 ⟨0, [], 1000, intr_level.INTR_ON, []⟩
        = Outcome.returned s2 ∧
      s2.sleeping_threads = [⟨1, 9223372036854775⟩]) := by
  refine ⟨by decide, by decide, by decide, rfl, ⟨_, rfl, by decide, by decide, _, rfl⟩,
    ⟨_, rfl, by decide⟩⟩

/-- C7, amended.  With interrupts on, for every duration `x` given to `timer_msleep`,
`timer_usleep` or `timer_nsleep` (denominator `denom` = 1000, 10^6, 10^9) for which
the product `x * TIMER_FREQ` is an `int64_t`: when the quotient of `x * TIMER_FREQ` by
`denom` (of the integers, rounded toward zero as in C) is 0, the call takes the busy-wait
path, that is, it is `real_time_delay`, which returns after one `busy_wait` call, leaves
the sleep list as it was and makes no `sema_down` call; when the quotient is at least 1,
the call is `timer_sleep` with exactly that quotient as tick count, which enqueues the
thread and downs its semaphore. -/
theorem real_time_sleep_paths (TIMER_FREQ cur : Nat) (x denom : Int) (s : TimerState)
    (h : s.level = intr_level.INTR_ON)
    (hd : denom = 1000 ∨ denom = 1000 * 1000 ∨ denom = 1000 * 1000 * 1000)
    (hr : INT64_MIN ≤ x * TIMER_FREQ ∧ x * TIMER_FREQ ≤ INT64_MAX) :
    timer_msleep TIMER_FREQ cur x s = real_time_sleep TIMER_FREQ cur x 1000 s ∧
    timer_usleep TIMER_FREQ cur x s = real_time_sleep TIMER_FREQ cur x (1000 * 1000) s ∧
    timer_nsleep TIMER_FREQ cur x s
      = real_time_sleep TIMER_FREQ cur x (1000 * 1000 * 1000) s ∧
    real_time_ticks TIMER_FREQ x denom = Int.tdiv (x * TIMER_FREQ) denom ∧
    (Int.tdiv (x * TIMER_FREQ) denom = 0 →
      real_time_sleep TIMER_FREQ cur x denom s = real_time_delay TIMER_FREQ x denom s ∧
      real_time_sleep TIMER_FREQ cur x denom s = Outcome.returned
        (busy_wait (real_time_loops TIMER_FREQ s.loops_per_tick x denom) s) ∧
      (busy_wait (real_time_loops TIMER_FREQ s.loops_per_tick x denom) s).sleeping_threads
        = s.sleeping_threads ∧
      (busy_wait (real_time_loops TIMER_FREQ s.loops_per_tick x denom) s).trace
        = s.trace ++ [Event.busy_wait (real_time_loops TIMER_FREQ s.loops_per_tick x denom)] ∧
      downed (new_events s.trace
        (busy_wait (real_time_loops TIMER_FREQ s.loops_per_tick x denom) s).trace) = []) ∧
    (Int.tdiv (x * TIMER_FREQ) denom ≥ 1 →
      real_time_sleep TIMER_FREQ cur x denom s
        = timer_sleep cur (Int.tdiv (x * TIMER_FREQ) denom) s ∧
      real_time_sleep TIMER_FREQ cur x denom s
        = Outcome.returned
            (thread_sleep cur (Int.tdiv (x * TIMER_FREQ) denom) (timer_ticks s).2) ∧
      (⟨cur, int64_add s.ticks (Int.tdiv (x * TIMER_FREQ) denom)⟩ : thread) ∈
        (thread_sleep cur (Int.tdiv (x * TIMER_FREQ) denom)
          (timer_ticks s).2).sleeping_threads ∧
      downed (new_events s.trace
        (thread_sleep cur (Int.tdiv (x * TIMER_FREQ) denom) (timer_ticks s).2).trace)
        = [⟨cur, int64_add s.ticks (Int.tdiv (x * TIMER_FREQ) denom)⟩]) := by
  have hticks : real_time_ticks TIMER_FREQ x denom = Int.tdiv (x * TIMER_FREQ) denom := by
    have hpos : (0 : Int) < denom := by
      rcases hd with h | h | h <;> subst h <;> decide
    unfold real_time_ticks int64_div int64_mul
    rw [int64_wrap_of_range _ hr.1 hr.2]
    have hb := tdiv_between (x * TIMER_FREQ) denom hpos
    apply int64_wrap_of_range
    · have h0 : INT64_MIN ≤ 0 := by decide
      rcases le_total 0 (x * (TIMER_FREQ : Int)) with hx | hx
      · exact le_trans h0 (hb.1 hx).1
      · exact le_trans hr.1 (hb.2 hx).1
    · have h0 : (0 : Int) ≤ INT64_MAX := by decide
      rcases le_total 0 (x * (TIMER_FREQ : Int)) with hx | hx
      · exact le_trans (hb.1 hx).2 hr.2
      · exact le_trans (hb.2 hx).2 h0
  refine ⟨rfl, rfl, rfl, hticks, ?_, ?_⟩
  · intro hq
    have heq : real_time_sleep TIMER_FREQ cur x denom s
        = real_time_delay TIMER_FREQ x denom s := by
      rw [real_time_sleep_eq TIMER_FREQ cur x denom s h hd, if_neg (by rw [hticks]; omega)]
    refine ⟨heq, ?_, rfl, rfl, ?_⟩
    · rw [heq]
      exact real_time_delay_returns TIMER_FREQ x denom s hd
    · simp [busy_wait, new_events, downed]
  · intro hq
    have heq : real_time_sleep TIMER_FREQ cur x denom s
        = timer_sleep cur (Int.tdiv (x * TIMER_FREQ) denom) s := by
      rw [real_time_sleep_eq TIMER_FREQ cur x denom s h hd, if_pos (by rw [hticks]; omega),
        hticks]
    refine ⟨heq, ?_, ?_, ?_⟩
    · rw [heq]
      exact timer_sleep_eq cur _ s h
    · rw [thread_sleep_eq, timer_ticks_snd]
      exact (mem_list_insert_ordered _ _ _ _).mpr (Or.inl rfl)
    · rw [thread_sleep_trace, timer_ticks_snd]
      simp [new_events, downed, thread_sleep_events, timer_ticks_events]

/-- Scenario of C7, amended, with `TIMER_FREQ = 100`: `timer_msleep (5)` has the quotient
0 and busy-waits; `timer_msleep (50)` has the quotient 5 and is `timer_sleep (5)`. -/
theorem real_time_sleep_paths_scenario :
    (⟨0, [], 1000, intr_level.INTR_ON, []⟩ : TimerState).level = intr_level.INTR_ON ∧
    (INT64_MIN ≤ (5 : Int) * (100 : Nat) ∧ (5 : Int) * (100 : Nat) ≤ INT64_MAX) ∧
    Int.tdiv ((5 : Int) * (100 : Nat)) 1000 = 0 ∧
    real_time_sleep 100 1 5 1000 ⟨0, [], 1000, intr_level.INTR_ON, []⟩
      = real_time_delay 100 5 1000 ⟨0, [], 1000, intr_level.INTR_ON, []⟩ ∧
    real_time_loops 100 1000 5 1000 = 500 ∧
    (INT64_MIN ≤ (50 : Int) * (100 : Nat) ∧ (50 : Int) * (100 : Nat) ≤ INT64_MAX) ∧
    Int.tdiv ((50 : Int) * (100 : Nat)) 1000 = 5 ∧
    real_time_sleep 100 1 50 1000 ⟨0, [], 1000, intr_level.INTR_ON, []⟩
      = timer_sleep 1 (Int.tdiv ((50 : Int) * (100 : Nat)) 1000)
          ⟨0, [], 1000, intr_level.INTR_ON, []⟩ :=
  ⟨rfl, by decide, by decide,
   ((real_time_sleep_paths 100 1 5 1000 ⟨0, [], 1000, intr_level.INTR_ON, []⟩ rfl
      (Or.inl rfl) (by decide)).2.2.2.2.1 (by decide)).1,
   by decide, by decide, by decide,
   ((real_time_sleep_paths 100 1 50 1000 ⟨0, [], 1000, intr_level.INTR_ON, []⟩ rfl
      (Or.inl rfl) (by decide)).2.2.2.2.2 (by decide)).1⟩

/-- C8 does not hold as stated.  The oracle for which every loop is too many loops is
deterministic and monotone, and `timer_calibrate` returns with it: the result is the
start value 1024, which the oracle says is too many loops, and no trial was observed to
fit.  With the monotone oracle "more than 1024 loops are too many" the result 1024 does
fit, but again no trial was observed to fit: the start value is never tested. -/
theorem calibrate_start_value_untested :
    (∀ a b : Nat, a ≤ b → (fun _ : Nat => true) a = true → (fun _ : Nat => true) b = true) ∧
    (∃ s1, timer_calibrate 100 (fun _ _ => true) 22 ⟨0, [], 0, intr_level.INTR_ON, []⟩
        = Outcome.returned s1 ∧
      s1.loops_per_tick = 1024 ∧
      (fun _ : Nat => true) s1.loops_per_tick = true ∧
      (∀ p ∈ new_trials [] s1.trace, p.2 = true)) ∧
    (∀ a b : Nat, a ≤ b → decide (a > 1024) = true → decide (b > 1024) = true) ∧
    (∃ s1, timer_calibrate 100 (fun _ n => decide (n > 1024)) 22
        ⟨0, [], 0, intr_level.INTR_ON, []⟩ = Outcome.returned s1 ∧
      s1.loops_per_tick = 1024 ∧
      decide (s1.loops_per_tick > 1024) = false ∧
      (∀ p ∈ new_trials [] s1.trace, p.2 = true)) := by
  refine ⟨fun _ _ _ _ => rfl, ⟨_, rfl, rfl, rfl, by decide⟩, ?_,
    ⟨_, rfl, rfl, by decide, by decide⟩⟩
  intro a b hab ha
  simp only [decide_eq_true_eq] at ha ⊢
  omega

/-- C8, amended.  Let the oracle `f` be deterministic and monotone and let
`timer_calibrate` return (with a budget of at least 22).  Then a loop of
`2 * loops_per_tick` iterations is too many loops; every trial recorded is an answer of
the oracle; `loops_per_tick` is at least every count that a trial observed to fit; if
some trial observed a fit, `loops_per_tick` is itself a count that a trial observed to
fit, hence the largest such count, and it fits; if no trial observed a fit,
`loops_per_tick` is the start value `2 ^ 10`, which no trial tests; so `loops_per_tick`
fits whenever `2 ^ 10` iterations fit. -/
theorem calibrate_result_monotone_oracle (TIMER_FREQ : Nat) (f : Nat → Bool) (fuel : Nat)
    (s s1 : TimerState) (hmono : ∀ a b : Nat, a ≤ b → f a = true → f b = true)
    (hf : 22 ≤ fuel)
    (hret : timer_calibrate TIMER_FREQ (fun _ => f) fuel s = Outcome.returned s1) :
    f (2 * s1.loops_per_tick) = true ∧
    (∀ p ∈ new_trials s.trace s1.trace, p.2 = f p.1) ∧
    (∀ n, (n, false) ∈ new_trials s.trace s1.trace → n ≤ s1.loops_per_tick) ∧
    ((∃ n, (n, false) ∈ new_trials s.trace s1.trace) →
      (s1.loops_per_tick, false) ∈ new_trials s.trace s1.trace ∧
      f s1.loops_per_tick = false) ∧
    ((∀ n, (n, false) ∉ new_trials s.trace s1.trace) → s1.loops_per_tick = 2 ^ 10) ∧
    (f (2 ^ 10) = false → f s1.loops_per_tick = false) := by
  have hlev : s.level = intr_level.INTR_ON := by
    by_contra hne
    unfold timer_calibrate at hret
    rw [if_neg (show ¬ intr_get_level s = intr_level.INTR_ON from hne)] at hret
    exact absurd hret (by simp)
  rcases timer_calibrate_spec TIMER_FREQ (fun _ => f) fuel s hlev hf with
    ⟨j, hj, hfit, hstop, heq⟩ | ⟨_, heq⟩
  swap
  · rw [heq] at hret
    exact absurd hret (by simp)
  rw [heq] at hret
  injection hret with hs1
  subst hs1
  obtain ⟨ev, htr, _, _, _, _, _, hev, hlast, _, hge, _⟩ :=
    refine_upto_inv (fun _ => f) (10 + j) (after_double s j) rfl 9 (le_refl _) (by omega)
  have hmem := mem_new_trials_calibrate (fun _ => f) s j
    (Msg.loops_per_s ((refine_upto (fun _ => f) (10 + j) 9 (after_double s j)).loops_per_tick
      * TIMER_FREQ % 2 ^ 64)) ev htr
  simp only [emit_loops] at hev hlast hge ⊢
  generalize hL : (refine_upto (fun _ => f) (10 + j) 9 (after_double s j)).loops_per_tick = L
    at hev hlast hge hmem ⊢
  generalize (emit (Event.printf (Msg.loops_per_s (L * TIMER_FREQ % 2 ^ 64)))
    (refine_upto (fun _ => f) (10 + j) 9 (after_double s j))).trace = tr at hmem ⊢
  -- the trials of the doubling loop
  have hdfit : ∀ i, i < j → double_trial 10 i = 2 ^ (11 + i) ∧ 2 ^ (11 + i) ≤ L := by
    intro i hi
    refine ⟨?_, ?_⟩
    · rw [double_trial_of_le 10 i (by omega), show 10 + 1 + i = 11 + i by omega]
    · exact le_trans (Nat.pow_le_pow_right (by norm_num) (by omega)) hge
  have hstop_le : double_trial 10 j ≤ 2 * L := by
    have h1 : double_trial 10 j ≤ 2 ^ (10 + 1 + j) := Nat.mod_le _ _
    have h2 : (2 : Nat) ^ (10 + 1 + j) = 2 * 2 ^ (10 + j) := by
      rw [show 10 + 1 + j = (10 + j) + 1 by omega, pow_succ]
      ring
    omega
  have hanswer : ∀ n r, (n, r) ∈ new_trials s.trace tr → r = f n := by
    intro n r hp
    rcases (hmem n r).mp hp with ⟨i, hi, hn, hr⟩ | ⟨hn, hr⟩ | he
    · rw [hr, hn]; exact (hfit i hi).symm
    · rw [hr, hn]; exact hstop.symm
    · obtain ⟨n1, c, he1, _, _⟩ := hev _ he
      injection he1 with h1 h2
      rw [h2, h1]
  have hle : ∀ n, (n, false) ∈ new_trials s.trace tr → n ≤ L := by
    intro n hp
    rcases (hmem n false).mp hp with ⟨i, hi, hn, _⟩ | ⟨_, hr⟩ | he
    · rw [hn, (hdfit i hi).1]; exact (hdfit i hi).2
    · exact absurd hr (by simp)
    · obtain ⟨n1, c, he1, _, hfit1⟩ := hev _ he
      injection he1 with h1 h2
      rw [h1]
      exact hfit1 h2.symm
  have hsome : (∃ n, (n, false) ∈ new_trials s.trace tr) →
      (L, false) ∈ new_trials s.trace tr := by
    rintro ⟨n, hp⟩
    rcases hlast with hL2 | hL2
    · rcases (hmem n false).mp hp with ⟨i, hi, _, _⟩ | ⟨_, hr⟩ | he
      · refine (hmem L false).mpr (Or.inl ⟨j - 1, by omega, ?_, rfl⟩)
        rw [hL2, double_trial_of_le 10 (j - 1) (by omega),
          show 10 + 1 + (j - 1) = 10 + j by omega]
      · exact absurd hr (by simp)
      · obtain ⟨n1, c, he1, hgt, hfit1⟩ := hev _ he
        injection he1 with h1 h2
        have := hfit1 h2.symm
        omega
    · exact (hmem L false).mpr (Or.inr (Or.inr hL2))
  have hnone : (∀ n, (n, false) ∉ new_trials s.trace tr) → L = 2 ^ 10 := by
    intro hno
    have hj0 : j = 0 := by
      by_contra hne
      exact hno _ ((hmem _ false).mpr (Or.inl ⟨0, by omega, rfl, rfl⟩))
    rcases hlast with hL2 | hL2
    · rw [hL2, hj0]
    · exact absurd ((hmem L false).mpr (Or.inr (Or.inr hL2))) (hno L)
  have hfitL : (∃ n, (n, false) ∈ new_trials s.trace tr) → f L = false := by
    intro h
    exact (hanswer L false (hsome h)).symm
  refine ⟨hmono _ _ hstop_le hstop, ?_, hle, fun h => ⟨hsome h, hfitL h⟩, hnone, ?_⟩
  · rintro ⟨n, r⟩ hp
    exact hanswer n r hp
  · intro h10
    by_cases hex : ∃ n, (n, false) ∈ new_trials s.trace tr
    · exact hfitL hex
    · rw [hnone (fun n hn => hex ⟨n, hn⟩)]
      exact h10

/-- Scenario of C8 with the oracle "more than 5000 loops are too many": the result is
5000, the largest count that a trial saw fit; 5000 loops fit and 10000 do not. -/
theorem calibrate_result_monotone_oracle_scenario :
    (∀ a b : Nat, a ≤ b → decide (a > 5000) = true → decide (b > 5000) = true) ∧
    (22 : Nat) ≤ 22 ∧
    ∃ s1, timer_calibrate 100 (fun _ n => decide (n > 5000)) 22
        ⟨0, [], 0, intr_level.INTR_ON, []⟩ = Outcome.returned s1 ∧
      s1.loops_per_tick = 5000 ∧
      decide (2 * s1.loops_per_tick > 5000) = true ∧
      new_trials [] s1.trace =
        [(2048, false), (4096, false), (8192, true), (6144, true), (5120, true),
         (4608, false), (4864, false), (4992, false), (5056, true), (5024, true),
         (5008, true), (5000, false)] :=
  ⟨by intro a b hab ha; simp only [decide_eq_true_eq] at ha ⊢; omega, le_refl _, _, rfl, rfl,
   (calibrate_result_monotone_oracle 100 (fun n => decide (n > 5000)) 22
      ⟨0, [], 0, intr_level.INTR_ON, []⟩ _
      (by intro a b hab ha; simp only [decide_eq_true_eq] at ha ⊢; omega)
      (le_refl _) rfl).1,
   by decide⟩

/-- C9, as the code behaves.  Let `timer_calibrate` return (budget at least 22), for
any oracle.  The doubling loop has found a power of two `high_bit = 2 ^ (10 + j)` after
`j + 1` trials.  The refinement loop then makes exactly nine trials (the claim and the
comment in the code say eight), one for each of the bits `high_bit >> 1`, ...,
`high_bit >> 9` in this order: trial `i` (from 0) is on the value of `loops_per_tick`
at that moment with the bit `high_bit >> (i + 1)` set.  Each of these nine bits is set
in the final `loops_per_tick` exactly when its trial was not too many loops. -/
theorem refinement_tests_nine_bits (TIMER_FREQ : Nat) (tml : Nat → Nat → Bool)
    (fuel : Nat) (s s1 : TimerState) (hf : 22 ≤ fuel)
    (hret : timer_calibrate TIMER_FREQ tml fuel s = Outcome.returned s1) :
    ∃ j, j ≤ 21 ∧
      (after_double s j).loops_per_tick = 2 ^ (10 + j) ∧
      (new_trials s.trace (after_double s j).trace).length = j + 1 ∧
      s1.loops_per_tick = (refine_upto tml (10 + j) 9 (after_double s j)).loops_per_tick ∧
      s1.trace = (refine_upto tml (10 + j) 9 (after_double s j)).trace ++
        [Event.printf (Msg.loops_per_s (s1.loops_per_tick * TIMER_FREQ % 2 ^ 64))] ∧
      (new_trials (after_double s j).trace
        (refine_upto tml (10 + j) 9 (after_double s j)).trace).length = 9 ∧
      (new_trials s.trace s1.trace).length = j + 1 + 9 ∧
      (∀ i, i < 9 →
        2 ^ (10 + j - 1 - i) = (after_double s j).loops_per_tick >>> (i + 1) ∧
        (refine_upto tml (10 + j) (i + 1) (after_double s j)).trace =
          (refine_upto tml (10 + j) i (after_double s j)).trace ++
          [Event.too_many_loops
            ((refine_upto tml (10 + j) i (after_double s j)).loops_per_tick
              ||| 2 ^ (10 + j - 1 - i))
            (tml (trials (refine_upto tml (10 + j) i (after_double s j)).trace)
              ((refine_upto tml (10 + j) i (after_double s j)).loops_per_tick
                ||| 2 ^ (10 + j - 1 - i)))] ∧
        (s1.loops_per_tick.testBit (10 + j - 1 - i) = true ↔
          tml (trials (refine_upto tml (10 + j) i (after_double s j)).trace)
            ((refine_upto tml (10 + j) i (after_double s j)).loops_per_tick
              ||| 2 ^ (10 + j - 1 - i)) = false)) := by
  have hlev : s.level = intr_level.INTR_ON := by
    by_contra hne
    unfold timer_calibrate at hret
    rw [if_neg (show ¬ intr_get_level s = intr_level.INTR_ON from hne)] at hret
    exact absurd hret (by simp)
  rcases timer_calibrate_spec TIMER_FREQ tml fuel s hlev hf with
    ⟨j, hj, _, _, heq⟩ | ⟨_, heq⟩
  swap
  · rw [heq] at hret
    exact absurd hret (by simp)
  rw [heq] at hret
  injection hret with hs1
  subst hs1
  obtain ⟨_, _, h9, hbits⟩ := calibrate_refine_nine tml (10 + j) (after_double s j) 10
    (by omega) rfl (le_refl _)
  have hd : (new_trials s.trace (after_double s j).trace).length = j + 1 := by
    unfold new_trials after_double
    simp only [List.drop_left]
    rw [show (Event.printf Msg.calibrating ::
        (double_fits 10 j ++ [Event.too_many_loops (double_trial 10 j) true]))
      = [Event.printf Msg.calibrating] ++
        (double_fits 10 j ++ [Event.too_many_loops (double_trial 10 j) true]) from rfl,
      trial_log_append, trial_log_append, trial_log_double_fits]
    simp [trial_log]
  obtain ⟨ev, htr, _⟩ :=
    refine_upto_inv tml (10 + j) (after_double s j) rfl 9 (le_refl _) (by omega)
  refine ⟨j, hj, rfl, hd, rfl, rfl, h9, ?_, ?_⟩
  · have h9' := h9
    unfold new_trials at h9' hd ⊢
    rw [htr, List.drop_left] at h9'
    have hsplit : (after_double s j).trace = s.trace ++
        (after_double s j).trace.drop s.trace.length := by
      unfold after_double
      simp only [List.drop_left]
    rw [emit_trace, htr, hsplit, List.append_assoc, List.append_assoc, List.drop_left,
      trial_log_append, trial_log_append, List.length_append, List.length_append, hd, h9']
    simp [trial_log]
  · intro i hi
    obtain ⟨h1, _, h3, h4⟩ := hbits i hi
    exact ⟨h1, h3, h4⟩

/-- Scenario of C9 with an oracle for which everything is too many loops: one trial of
the doubling loop (on 2048), then nine trials of the refinement loop, on 1536, 1280,
1152, 1088, 1056, 1040, 1032, 1028 and 1026. -/
theorem refinement_tests_nine_bits_scenario :
    (22 : Nat) ≤ 22 ∧
    ∃ s1, timer_calibrate 100 (fun _ _ => true) 22 ⟨0, [], 0, intr_level.INTR_ON, []⟩
        = Outcome.returned s1 ∧
      new_trials [] s1.trace =
        [(2048, true), (1536, true), (1280, true), (1152, true), (1088, true),
         (1056, true), (1040, true), (1032, true), (1028, true), (1026, true)] ∧
      ∃ j, j ≤ 21 ∧
        (new_trials (after_double ⟨0, [], 0, intr_level.INTR_ON, []⟩ j).trace
          (refine_upto (fun _ _ => true) (10 + j) 9
            (after_double ⟨0, [], 0, intr_level.INTR_ON, []⟩ j)).trace).length = 9 :=
  ⟨le_refl _, _, rfl, by decide,
   (refinement_tests_nine_bits 100 (fun _ _ => true) 22 ⟨0, [], 0, intr_level.INTR_ON, []⟩ _
      (le_refl _) rfl).imp
     (fun _ h => ⟨h.1, h.2.2.2.2.2.1⟩)⟩

/-- C10: the overflow guard of `timer_calibrate`, run with a budget of at least 22.
If it is called with interrupts on and every trial of the doubling loop reports that the
loop fits (the 22 trials are on `2 ^ 11`, ..., `2 ^ 31` and, after the 32-bit count has
wrapped, on 0), the assertion `loops_per_tick != 0` fails, with `loops_per_tick = 0`,
and the routine does not return.  Whenever the routine returns, `loops_per_tick` is not
0 (it is at least `2 ^ 10`).  The budget is never used up. -/
theorem calibrate_overflow_guard (TIMER_FREQ : Nat) (tml : Nat → Nat → Bool) (fuel : Nat)
    (s : TimerState) (hf : 22 ≤ fuel) :
    (double_trial 10 0 = 2 ^ 11 ∧ double_trial 10 20 = 2 ^ 31 ∧ double_trial 10 21 = 0) ∧
    (s.level = intr_level.INTR_ON →
      (∀ i, i ≤ 21 → tml (trials s.trace + i) (double_trial 10 i) = false) →
      ∃ s1, timer_calibrate TIMER_FREQ tml fuel s = Outcome.panic s1 ∧
        s1.loops_per_tick = 0 ∧
        (new_trials s.trace s1.trace).length = 22) ∧
    (∀ s1, timer_calibrate TIMER_FREQ tml fuel s = Outcome.returned s1 →
      s1.loops_per_tick ≠ 0 ∧ 2 ^ 10 ≤ s1.loops_per_tick) ∧
    timer_calibrate TIMER_FREQ tml fuel s ≠ Outcome.out_of_fuel := by
  by_cases hlev : s.level = intr_level.INTR_ON
  swap
  · have hp : timer_calibrate TIMER_FREQ tml fuel s = Outcome.panic s := by
      unfold timer_calibrate
      rw [if_neg (show ¬ intr_get_level s = intr_level.INTR_ON from hlev)]
    refine ⟨by decide, fun h => absurd h hlev, ?_, ?_⟩
    · intro s1 h
      rw [hp] at h
      exact absurd h (by simp)
    · rw [hp]; simp
  refine ⟨by decide, ?_, ?_, ?_⟩
  · intro _ hall
    rcases timer_calibrate_spec TIMER_FREQ tml fuel s hlev hf with
      ⟨j, hj, _, hstop, _⟩ | ⟨_, heq⟩
    · rw [hall j hj] at hstop
      exact absurd hstop (by simp)
    · refine ⟨_, heq, rfl, ?_⟩
      simp only [new_trials, List.drop_left]
      decide
  · intro s1 hret
    rcases timer_calibrate_spec TIMER_FREQ tml fuel s hlev hf with
      ⟨j, hj, _, _, heq⟩ | ⟨_, heq⟩
    · rw [heq] at hret
      injection hret with hs1
      subst hs1
      obtain ⟨_, _, _, _, _, _, _, _, _, _, hge, _⟩ :=
        refine_upto_inv tml (10 + j) (after_double s j) rfl 9 (le_refl _) (by omega)
      have h1 : (2 : Nat) ^ 10 ≤ 2 ^ (10 + j) := Nat.pow_le_pow_right (by norm_num) (by omega)
      have h2 : (2 : Nat) ^ 10 ≤
          (refine_upto tml (10 + j) 9 (after_double s j)).loops_per_tick := le_trans h1 hge
      simp only [emit_loops]
      exact ⟨by omega, h2⟩
    · rw [heq] at hret
      exact absurd hret (by simp)
  · rcases timer_calibrate_spec TIMER_FREQ tml fuel s hlev hf with
      ⟨j, _, _, _, heq⟩ | ⟨_, heq⟩ <;> rw [heq] <;> simp

/-- Scenario of C10: with an oracle for which every loop fits, `timer_calibrate`
panics. -/
theorem calibrate_overflow_guard_scenario :
    (⟨0, [], 0, intr_level.INTR_ON, []⟩ : TimerState).level = intr_level.INTR_ON ∧
    (22 : Nat) ≤ 22 ∧
    (∀ i, i ≤ 21 → (fun _ _ => false : Nat → Nat → Bool)
      (trials (⟨0, [], 0, intr_level.INTR_ON, []⟩ : TimerState).trace + i)
      (double_trial 10 i) = false) ∧
    ∃ s1, timer_calibrate 100 (fun _ _ => false) 22 ⟨0, [], 0, intr_level.INTR_ON, []⟩
        = Outcome.panic s1 ∧ s1.loops_per_tick = 0 ∧
        (new_trials (⟨0, [], 0, intr_level.INTR_ON, []⟩ : TimerState).trace s1.trace).length
          = 22 :=
  ⟨rfl, le_refl _, fun _ _ => rfl,
   (calibrate_overflow_guard 100 (fun _ _ => false) 22 ⟨0, [], 0, intr_level.INTR_ON, []⟩
      (le_refl _)).2.1 rfl (fun _ _ => rfl)⟩

/-- C11: called with interrupts off, `timer_sleep`, `timer_msleep`, `timer_usleep`,
`timer_nsleep` and `timer_calibrate` each fail their assertion.  The state at that point
has the sleep list, the tick counter, `loops_per_tick` and the interrupt level of the
state before the call, and no `sema_down` call was made (the caller is not blocked):
for the real-time sleeps and the calibration nothing at all has happened, for
`timer_sleep` only the `timer_ticks` call that precedes the assertion (it reads the
counter between `intr_disable` and the restore of the level). -/
theorem sleeps_and_calibration_need_interrupts_on (TIMER_FREQ cur : Nat) (n : Int)
    (tml : Nat → Nat → Bool) (fuel : Nat) (s : TimerState)
    (h : s.level = intr_level.INTR_OFF) :
    (∃ s1, timer_sleep cur n s = Outcome.panic s1 ∧
      s1.sleeping_threads = s.sleeping_threads ∧ s1.ticks = s.ticks ∧
      s1.loops_per_tick = s.loops_per_tick ∧ s1.level = s.level ∧
      new_events s.trace s1.trace =
        [Event.intr_disable, Event.access Shared.ticks intr_level.INTR_OFF,
         Event.intr_set_level s.level] ∧
      downed (new_events s.trace s1.trace) = []) ∧
    timer_msleep TIMER_FREQ cur n s = Outcome.panic s ∧
    timer_usleep TIMER_FREQ cur n s = Outcome.panic s ∧
    timer_nsleep TIMER_FREQ cur n s = Outcome.panic s ∧
    timer_calibrate TIMER_FREQ tml fuel s = Outcome.panic s := by
  have hne : ¬ s.level = intr_level.INTR_ON := by rw [h]; decide
  refine ⟨⟨(timer_ticks s).2, ?_, ?_, ?_, ?_, ?_, ?_, ?_⟩, ?_, ?_, ?_, ?_⟩
  · unfold timer_sleep
    simp only []
    rw [if_neg]
    rw [timer_ticks_snd]
    exact hne
  · rw [timer_ticks_snd]
  · rw [timer_ticks_snd]
  · rw [timer_ticks_snd]
  · rw [timer_ticks_snd]
  · rw [timer_ticks_snd]
    simp [new_events, timer_ticks_events]
  · rw [timer_ticks_snd]
    simp [new_events, downed, timer_ticks_events]
  · unfold timer_msleep real_time_sleep
    rw [if_neg (by decide), if_neg (show ¬ intr_get_level s = intr_level.INTR_ON from hne)]
  · unfold timer_usleep real_time_sleep
    rw [if_neg (by decide), if_neg (show ¬ intr_get_level s = intr_level.INTR_ON from hne)]
  · unfold timer_nsleep real_time_sleep
    rw [if_neg (by decide), if_neg (show ¬ intr_get_level s = intr_level.INTR_ON from hne)]
  · unfold timer_calibrate
    rw [if_neg (show ¬ intr_get_level s = intr_level.INTR_ON from hne)]

/-- Scenario of C11: a sleep of 10 ticks with interrupts off, in a state with one
sleeper. -/
theorem sleeps_and_calibration_need_interrupts_on_scenario :
    (⟨5, [⟨7, 9⟩], 1024, intr_level.INTR_OFF, []⟩ : TimerState).level
      = intr_level.INTR_OFF ∧
    timer_msleep 100 1 10 ⟨5, [⟨7, 9⟩], 1024, intr_level.INTR_OFF, []⟩
      = Outcome.panic ⟨5, [⟨7, 9⟩], 1024, intr_level.INTR_OFF, []⟩ ∧
    timer_calibrate 100 (fun _ _ => true) 22 ⟨5, [⟨7, 9⟩], 1024, intr_level.INTR_OFF, []⟩
      = Outcome.panic ⟨5, [⟨7, 9⟩], 1024, intr_level.INTR_OFF, []⟩ :=
  ⟨rfl,
   (sleeps_and_calibration_need_interrupts_on 100 1 10 (fun _ _ => true) 22
      ⟨5, [⟨7, 9⟩], 1024, intr_level.INTR_OFF, []⟩ rfl).2.1,
   (sleeps_and_calibration_need_interrupts_on 100 1 10 (fun _ _ => true) 22
      ⟨5, [⟨7, 9⟩], 1024, intr_level.INTR_OFF, []⟩ rfl).2.2.2.2⟩

/-- C12: for `loops_per_tick < 2 ^ 32`, `TIMER_FREQ` from 19 to 1000, a denominator
1000, 10^6 or 10^9 and a numerator `num ≥ 0` for which the quotient
`num * TIMER_FREQ / denom` of the integers is 0, the count that `real_time_delay`
computes in `int64_t` is `loops_per_tick * num / 1000 * TIMER_FREQ / (denom / 1000)`
computed over the integers (all operands are non-negative, the quotients are rounded
down): neither product leaves the range of `int64_t`.  For these arguments the
quotient that `real_time_sleep` computes in `int64_t` is 0 as well, and
`real_time_delay` busy-waits for that count. -/
theorem real_time_delay_count_exact (TIMER_FREQ lpt : Nat) (num denom : Int)
    (hl : lpt < 2 ^ 32) (hF1 : 19 ≤ TIMER_FREQ) (hF2 : TIMER_FREQ ≤ 1000)
    (hd : denom = 1000 ∨ denom = 1000 * 1000 ∨ denom = 1000 * 1000 * 1000)
    (hn : 0 ≤ num) (hq : num * TIMER_FREQ / denom = 0) :
    real_time_loops TIMER_FREQ lpt num denom =
      (lpt : Int) * num / 1000 * TIMER_FREQ / (denom / 1000) ∧
    int64_mul lpt num = (lpt : Int) * num ∧
    int64_mul ((lpt : Int) * num / 1000) TIMER_FREQ = (lpt : Int) * num / 1000 * TIMER_FREQ ∧
    (0 ≤ (lpt : Int) * num ∧ (lpt : Int) * num ≤ INT64_MAX) ∧
    (0 ≤ (lpt : Int) * num / 1000 * TIMER_FREQ ∧
      (lpt : Int) * num / 1000 * TIMER_FREQ ≤ INT64_MAX) ∧
    real_time_ticks TIMER_FREQ num denom = 0 ∧
    (∀ s : TimerState, s.loops_per_tick = lpt →
      real_time_delay TIMER_FREQ num denom s = Outcome.returned
        (busy_wait ((lpt : Int) * num / 1000 * TIMER_FREQ / (denom / 1000)) s)) := by
  have hd1 : 1000 ≤ denom := by
    rcases hd with h | h | h <;> rw [h] <;> norm_num
  have hd2 : denom ≤ INT32_MAX := by
    unfold INT32_MAX
    rcases hd with h | h | h <;> rw [h] <;> norm_num
  have hlt : num * TIMER_FREQ < denom := lt_of_ediv_eq_zero _ _ (by omega) hq
  obtain ⟨hP0, hP1, hA0, hA1⟩ :=
    real_time_loops_sizes TIMER_FREQ lpt num denom hl hF1 hF2 hd2 hn hlt
  have hex := real_time_loops_exact TIMER_FREQ lpt num denom hl hF1 hF2 hd1 hd2 hn hlt
  have hnF0 : 0 ≤ num * (TIMER_FREQ : Int) := mul_nonneg hn (Int.ofNat_nonneg _)
  have hnF1 : num * (TIMER_FREQ : Int) ≤ INT64_MAX := by
    unfold INT32_MAX at hd2
    unfold INT64_MAX
    norm_num at hd2 ⊢
    omega
  refine ⟨hex.1, int64_mul_of_nonneg _ _ hP0 hP1,
    int64_mul_of_nonneg _ _ hA0 (le_trans hA1 hP1), ⟨hP0, hP1⟩, ⟨hA0, le_trans hA1 hP1⟩,
    ?_, ?_⟩
  · unfold real_time_ticks
    rw [int64_mul_of_nonneg _ _ hnF0 hnF1,
      (int64_div_of_nonneg _ denom hnF0 hnF1 (by omega)).1, hq]
  · intro s hs
    rw [real_time_delay_returns TIMER_FREQ num denom s hd, hs, hex.1]

/-- Scenario of C12: 5 ms at 100 ticks per second with `loops_per_tick = 4000000`:
the calls of `timer_msleep (5)` end in a busy-wait of 2000000 loops. -/
theorem real_time_delay_count_exact_scenario :
    (4000000 < 2 ^ 32 ∧ 19 ≤ 100 ∧ 100 ≤ 1000 ∧ (0 : Int) ≤ 5 ∧
      (5 : Int) * (100 : Nat) / 1000 = 0) ∧
    real_time_loops 100 4000000 5 1000 = 2000000 ∧
    real_time_loops 100 4000000 5 1000 =
      ((4000000 : Nat) : Int) * 5 / 1000 * (100 : Nat) / (1000 / 1000) :=
  ⟨by decide, by decide,
   (real_time_delay_count_exact 100 4000000 5 1000 (by decide) (by decide) (by decide)
      (Or.inl rfl) (by decide) (by decide)).1⟩

/-- C13: in every state (whatever the sleep list holds, also when no thread is due and
when the list is empty) the calls that one `timer_interrupt` adds to the trace are the
calls of its wake loop followed by a single `thread_tick`: `thread_tick` is called
exactly once, it is the last call, and every `sema_up` of this interrupt (the threads
of `woken_by_interrupt`) comes before it.  With no thread to wake, `thread_tick` is the
only call. -/
theorem thread_tick_once_after_wakes (s : TimerState) :
    thread_ticks (new_events s.trace (timer_interrupt s).trace) = 1 ∧
    (∃ before, new_events s.trace (timer_interrupt s).trace = before ++ [Event.thread_tick] ∧
      thread_ticks before = 0 ∧
      signalled before = woken_by_interrupt s ∧
      signalled before = s.sleeping_threads.takeWhile (due (timer_interrupt s).ticks)) ∧
    (woken_by_interrupt s = [] →
      new_events s.trace (timer_interrupt s).trace = [Event.thread_tick]) ∧
    (s.sleeping_threads = [] →
      new_events s.trace (timer_interrupt s).trace = [Event.thread_tick]) := by
  have hn : new_events s.trace (timer_interrupt s).trace =
      wake_events (int64_add s.ticks 1) s.level s.sleeping_threads ++
        [Event.thread_tick] := by
    rw [timer_interrupt_trace, new_events_append]
  refine ⟨?_, ⟨wake_events (int64_add s.ticks 1) s.level s.sleeping_threads, hn,
    thread_ticks_wake_events _ _ _, ?_, ?_⟩, ?_, ?_⟩
  · rw [hn, thread_ticks_append, thread_ticks_wake_events]
    rfl
  · rw [woken_by_interrupt_eq, signalled_wake_events]
  · rw [timer_interrupt_ticks, signalled_wake_events]
  · intro hw
    rw [woken_by_interrupt_eq] at hw
    rw [hn]
    cases hl : s.sleeping_threads with
    | nil => rfl
    | cons t rest =>
      rw [hl] at hw
      by_cases hd : due (int64_add s.ticks 1) t = true
      · simp [List.takeWhile_cons, hd] at hw
      · simp [wake_events, hd]
  · intro hl
    rw [hn, hl]
    rfl

/-- C15: for every interrupt level on entry, `timer_ticks` reads the shared counter
after `intr_disable` and before the restore of the level, at level off (the access is
recorded with the level at which it is made), and leaves the level as it was on entry;
it changes neither the counter nor the sleep list nor `loops_per_tick`.  The critical
section of `thread_sleep` touches the shared sleep list after its own `intr_disable` and
before the restore, at level off, restores the level found on entry and only then calls
`sema_down`; every access that `thread_sleep` makes to a shared variable is made at
level off, and `thread_sleep` leaves the level at its entry value.  (The read and the
list update record the level of the state in which they are executed, whatever it is.) -/
theorem critical_sections_restore_level (cur : Nat) (n : Int) (s : TimerState) :
    (new_events s.trace (timer_ticks s).2.trace =
        [Event.intr_disable, Event.access Shared.ticks intr_level.INTR_OFF,
         Event.intr_set_level s.level] ∧
      accesses (new_events s.trace (timer_ticks s).2.trace)
        = [(Shared.ticks, intr_level.INTR_OFF)] ∧
      (timer_ticks s).2.level = s.level ∧
      (timer_ticks s).1 = s.ticks ∧
      (timer_ticks s).2.ticks = s.ticks ∧
      (timer_ticks s).2.sleeping_threads = s.sleeping_threads ∧
      (timer_ticks s).2.loops_per_tick = s.loops_per_tick) ∧
    (new_events s.trace (thread_sleep cur n s).trace =
        [Event.intr_disable, Event.access Shared.ticks intr_level.INTR_OFF,
         Event.intr_set_level s.level,
         Event.intr_disable, Event.access Shared.sleeping_threads intr_level.INTR_OFF,
         Event.intr_set_level s.level,
         Event.sema_down ⟨cur, int64_add s.ticks n⟩] ∧
      accesses (new_events s.trace (thread_sleep cur n s).trace)
        = [(Shared.ticks, intr_level.INTR_OFF),
           (Shared.sleeping_threads, intr_level.INTR_OFF)] ∧
      (∀ p ∈ accesses (new_events s.trace (thread_sleep cur n s).trace),
        p.2 = intr_level.INTR_OFF) ∧
      (thread_sleep cur n s).level = s.level ∧
      (thread_sleep cur n s).sleeping_threads =
        list_insert_ordered s.sleeping_threads ⟨cur, int64_add s.ticks n⟩ ticks_compare) ∧
    (∀ s1 : TimerState,
      (read_ticks s1).1 = s1.ticks ∧
      new_events s1.trace (read_ticks s1).2.trace = [Event.access Shared.ticks s1.level]) ∧
    (∀ (f : List thread → List thread) (s1 : TimerState),
      (update_sleeping_threads f s1).sleeping_threads = f s1.sleeping_threads ∧
      new_events s1.trace (update_sleeping_threads f s1).trace
        = [Event.access Shared.sleeping_threads s1.level]) := by
  have h1 : new_events s.trace (timer_ticks s).2.trace =
      [Event.intr_disable, Event.access Shared.ticks intr_level.INTR_OFF,
       Event.intr_set_level s.level] := by
    rw [timer_ticks_snd]
    simp [new_events, timer_ticks_events]
  have h2 : new_events s.trace (thread_sleep cur n s).trace =
      [Event.intr_disable, Event.access Shared.ticks intr_level.INTR_OFF,
       Event.intr_set_level s.level,
       Event.intr_disable, Event.access Shared.sleeping_threads intr_level.INTR_OFF,
       Event.intr_set_level s.level,
       Event.sema_down ⟨cur, int64_add s.ticks n⟩] := by
    rw [thread_sleep_trace, new_events_append]
    rfl
  have h3 : accesses (new_events s.trace (thread_sleep cur n s).trace)
      = [(Shared.ticks, intr_level.INTR_OFF),
         (Shared.sleeping_threads, intr_level.INTR_OFF)] := by
    rw [h2]
    rfl
  refine ⟨⟨h1, ?_, ?_, timer_ticks_fst s, ?_, ?_, ?_⟩, ⟨h2, h3, ?_, ?_, ?_⟩, ?_, ?_⟩
  · rw [h1]
    rfl
  · rw [timer_ticks_snd]
  · rw [timer_ticks_snd]
  · rw [timer_ticks_snd]
  · rw [timer_ticks_snd]
  · rw [h3]
    intro p hp
    simp only [List.mem_cons, List.mem_singleton, List.not_mem_nil, or_false] at hp
    rcases hp with rfl | rfl <;> rfl
  · rw [thread_sleep_eq]
  · rw [thread_sleep_eq]
  · intro s1
    exact ⟨rfl, by simp [read_ticks, access, new_events]⟩
  · intro f s1
    exact ⟨rfl, by simp [update_sleeping_threads, access, new_events]⟩

/-- C16 (the code differs): `timer_interrupt` prints.  Whenever the front of the sleep
list is due at the tick that the handler's increment reaches, the handler calls `printf` five times for that thread before its `sema_up`
(tick, wake tick, a banner and two lines about the list neighbours), and once more for
every sleeper that remains in the list; it prints nothing exactly when it wakes no
thread. -/
theorem timer_interrupt_prints (s : TimerState) (t : thread) (rest : List thread)
    (hl : s.sleeping_threads = t :: rest) (hd : due (timer_interrupt s).ticks t = true) :
    (∃ more, prints (new_events s.trace (timer_interrupt s).trace) =
      [Msg.ticks (timer_interrupt s).ticks, Msg.tickers t.sleep_ticks, Msg.wake_up,
        Msg.prev, Msg.next]
        ++ rest.map (fun u => Msg.woke_up u.tid) ++ more) ∧
    prints (new_events s.trace (timer_interrupt s).trace) ≠ [] ∧
    (∀ s1 : TimerState, prints (new_events s1.trace (timer_interrupt s1).trace) = [] ↔
      woken_by_interrupt s1 = []) := by
  have hn : ∀ s1 : TimerState, new_events s1.trace (timer_interrupt s1).trace =
      wake_events (int64_add s1.ticks 1) s1.level s1.sleeping_threads ++
        [Event.thread_tick] := by
    intro s1
    rw [timer_interrupt_trace, new_events_append]
  have hp : ∀ l : List thread, prints (l.map (fun u => Event.printf (Msg.woke_up u.tid)))
      = l.map (fun u => Msg.woke_up u.tid) := by
    intro l
    induction l with
    | nil => rfl
    | cons a l ih =>
      rw [List.map_cons, List.map_cons, ← ih]
      rfl
  rw [timer_interrupt_ticks] at hd ⊢
  have h1 : prints (new_events s.trace (timer_interrupt s).trace) =
      [Msg.ticks (int64_add s.ticks 1), Msg.tickers t.sleep_ticks, Msg.wake_up, Msg.prev,
        Msg.next]
        ++ rest.map (fun u => Msg.woke_up u.tid)
        ++ prints (wake_events (int64_add s.ticks 1) s.level rest) := by
    rw [hn, hl]
    simp only [wake_events, hd, if_true]
    rw [prints_append, prints_append, prints_append, hp]
    simp [prints]
  refine ⟨⟨_, h1⟩, ?_, ?_⟩
  · rw [h1]
    simp
  · intro s1
    rw [hn, prints_append, woken_by_interrupt_eq, ← prints_wake_events_eq_nil _ s1.level]
    simp [prints]

/-- Scenario of C16: at tick 2 the list holds thread 1 (wake tick 3) and thread 2 (wake
tick 9); the interrupt that brings the counter to 3 prints six lines. -/
theorem timer_interrupt_prints_scenario :
    due (timer_interrupt ⟨2, [⟨1, 3⟩, ⟨2, 9⟩], 0, intr_level.INTR_OFF, []⟩).ticks ⟨1, 3⟩
      = true ∧
    prints (new_events [] (timer_interrupt ⟨2, [⟨1, 3⟩, ⟨2, 9⟩], 0, intr_level.INTR_OFF, []⟩).trace)
      = [Msg.ticks 3, Msg.tickers 3, Msg.wake_up, Msg.prev, Msg.next, Msg.woke_up 2] ∧
    prints (new_events [] (timer_interrupt ⟨2, [⟨1, 3⟩, ⟨2, 9⟩], 0, intr_level.INTR_OFF, []⟩).trace)
      ≠ [] :=
  ⟨by decide, by decide,
   (timer_interrupt_prints ⟨2, [⟨1, 3⟩, ⟨2, 9⟩], 0, intr_level.INTR_OFF, []⟩ ⟨1, 3⟩ [⟨2, 9⟩]
      rfl (by decide)).2.1⟩

/-- C17: for `loops_per_tick < 2 ^ 32`, `TIMER_FREQ` from 19 to 1000, a denominator
(an `int32_t`) that is a multiple of 1000 and a numerator `num ≥ 0` for which the
quotient of `num * TIMER_FREQ` by the denominator, rounded toward zero as in C, is 0,
the count that `real_time_delay` computes is at most `loops_per_tick`: the busy-wait
lasts no longer than one tick.  With a positive denominator the count is not negative
either. -/
theorem real_time_delay_count_le_loops_per_tick (TIMER_FREQ lpt : Nat) (num denom : Int)
    (hl : lpt < 2 ^ 32) (hF1 : 19 ≤ TIMER_FREQ) (hF2 : TIMER_FREQ ≤ 1000)
    (hm : Int.tmod denom 1000 = 0) (hd1 : INT32_MIN ≤ denom) (hd2 : denom ≤ INT32_MAX)
    (hn : 0 ≤ num) (hq : Int.tdiv (num * TIMER_FREQ) denom = 0) :
    real_time_loops TIMER_FREQ lpt num denom ≤ lpt ∧
    (0 < denom → 0 ≤ real_time_loops TIMER_FREQ lpt num denom) ∧
    (∀ s : TimerState, s.loops_per_tick = lpt → denom ≠ 0 →
      ∃ loops, loops ≤ (s.loops_per_tick : Int) ∧
        real_time_delay TIMER_FREQ num denom s = Outcome.returned (busy_wait loops s)) := by
  have hnF0 : 0 ≤ num * (TIMER_FREQ : Int) := mul_nonneg hn (Int.ofNat_nonneg _)
  have hl0 : (0 : Int) ≤ lpt := Int.ofNat_nonneg _
  have hden : denom = 1000 * Int.tdiv denom 1000 := by
    have := Int.tmod_add_tdiv denom 1000
    rw [hm] at this
    omega
  have hmain : real_time_loops TIMER_FREQ lpt num denom ≤ lpt ∧
      (0 < denom → 0 ≤ real_time_loops TIMER_FREQ lpt num denom) := by
    rcases lt_trichotomy denom 0 with hneg | hzero | hpos
    · -- a negative denominator: the count is not positive
      have hD : Int.tdiv denom 1000 < 0 := by omega
      have hq2 : Int.tdiv (num * TIMER_FREQ) (-denom) = 0 := by
        rw [Int.tdiv_neg, hq]
        rfl
      rw [Int.tdiv_eq_ediv hnF0 (by omega)] at hq2
      have hlt : num * TIMER_FREQ < -denom := lt_of_ediv_eq_zero _ _ (by omega) hq2
      have hd3 : -denom ≤ INT32_MAX := by
        unfold INT32_MIN at hd1
        unfold INT32_MAX
        norm_num at hd1 ⊢
        omega
      obtain ⟨hP0, hP1, hA0, hA1⟩ :=
        real_time_loops_sizes TIMER_FREQ lpt num (-denom) hl hF1 hF2 hd3 hn hlt
      have hval : ∃ q : Int, 0 ≤ q ∧ real_time_loops TIMER_FREQ lpt num denom = -q := by
        have h1 : ∃ q : Int, 0 ≤ q ∧ q ≤ (lpt : Int) * num / 1000 * TIMER_FREQ ∧
            Int.tdiv ((lpt : Int) * num / 1000 * TIMER_FREQ) (Int.tdiv denom 1000) = -q := by
          refine ⟨((lpt : Int) * num / 1000 * TIMER_FREQ) / (-Int.tdiv denom 1000),
            Int.ediv_nonneg hA0 (by omega), Int.ediv_le_self _ hA0, ?_⟩
          rw [← Int.tdiv_eq_ediv hA0 (by omega), Int.tdiv_neg, neg_neg]
        obtain ⟨q, hq0, hq1, hq2⟩ := h1
        refine ⟨q, hq0, ?_⟩
        unfold real_time_loops
        rw [int64_mul_of_nonneg _ _ hP0 hP1,
          (int64_div_of_nonneg _ 1000 hP0 hP1 (by norm_num)).1,
          int64_mul_of_nonneg _ _ hA0 (le_trans hA1 hP1)]
        unfold int64_div
        rw [hq2]
        apply int64_wrap_of_range
        · unfold INT64_MIN
          unfold INT64_MAX at hP1
          omega
        · unfold INT64_MAX
          omega
      obtain ⟨q, hq0, hval⟩ := hval
      constructor
      · rw [hval]
        omega
      · intro h
        omega
    · -- denominator 0: the quotient by `denom / 1000 = 0`
      have h0 : real_time_loops TIMER_FREQ lpt num denom = 0 := by
        unfold real_time_loops int64_div
        rw [hzero]
        have : Int.tdiv 0 1000 = 0 := rfl
        rw [this, Int.tdiv_zero]
        rfl
      rw [h0]
      exact ⟨hl0, fun _ => le_refl _⟩
    · have hd1000 : 1000 ≤ denom := by omega
      rw [Int.tdiv_eq_ediv hnF0 (le_of_lt hpos)] at hq
      have hlt : num * TIMER_FREQ < denom := lt_of_ediv_eq_zero _ _ hpos hq
      obtain ⟨hP0, hP1, hA0, hA1⟩ :=
        real_time_loops_sizes TIMER_FREQ lpt num denom hl hF1 hF2 hd2 hn hlt
      have hex := real_time_loops_exact TIMER_FREQ lpt num denom hl hF1 hF2 hd1000 hd2 hn hlt
      refine ⟨?_, fun _ => hex.2⟩
      rw [hex.1]
      have hDpos : 0 < denom / 1000 := by omega
      apply Int.ediv_le_of_le_mul hDpos
      -- a * F * 1000 ≤ lpt * num * F ≤ lpt * denom = lpt * D * 1000
      have ha1 : (lpt : Int) * num / 1000 * 1000 ≤ (lpt : Int) * num :=
        Int.ediv_mul_le _ (by norm_num)
      have h1 : (lpt : Int) * num / 1000 * 1000 * TIMER_FREQ ≤ (lpt : Int) * num * TIMER_FREQ :=
        mul_le_mul_of_nonneg_right ha1 (Int.ofNat_nonneg _)
      have h2 : (lpt : Int) * (num * TIMER_FREQ) ≤ (lpt : Int) * denom :=
        mul_le_mul_of_nonneg_left (le_of_lt hlt) hl0
      have h3 : denom = denom / 1000 * 1000 := by omega
      have h4 : (lpt : Int) * num / 1000 * TIMER_FREQ * 1000
          ≤ (lpt : Int) * (denom / 1000) * 1000 := by
        calc (lpt : Int) * num / 1000 * TIMER_FREQ * 1000
            = (lpt : Int) * num / 1000 * 1000 * TIMER_FREQ := by ring
          _ ≤ (lpt : Int) * num * TIMER_FREQ := h1
          _ = (lpt : Int) * (num * TIMER_FREQ) := by ring
          _ ≤ (lpt : Int) * denom := h2
          _ = (lpt : Int) * (denom / 1000 * 1000) := by rw [← h3]
          _ = (lpt : Int) * (denom / 1000) * 1000 := by ring
      exact le_of_mul_le_mul_right h4 (by norm_num)
  refine ⟨hmain.1, hmain.2, ?_⟩
  intro s hs hne
  refine ⟨real_time_loops TIMER_FREQ s.loops_per_tick num denom, ?_, ?_⟩
  · rw [hs]
    exact hmain.1
  · unfold real_time_delay
    rw [if_pos hm, if_neg]
    omega

/-- Scenario of C17: 9 ms at 100 ticks per second with `loops_per_tick = 4000000`:
a busy-wait of 3600000 loops. -/
theorem real_time_delay_count_le_loops_per_tick_scenario :
    (4000000 < 2 ^ 32 ∧ 19 ≤ 100 ∧ 100 ≤ 1000 ∧ Int.tmod 1000 1000 = 0 ∧
      INT32_MIN ≤ 1000 ∧ (1000 : Int) ≤ INT32_MAX ∧ (0 : Int) ≤ 9 ∧
      Int.tdiv ((9 : Int) * (100 : Nat)) 1000 = 0) ∧
    real_time_loops 100 4000000 9 1000 = 3600000 ∧
    real_time_loops 100 4000000 9 1000 ≤ (4000000 : Nat) :=
  ⟨by decide, by decide,
   (real_time_delay_count_le_loops_per_tick 100 4000000 9 1000 (by decide) (by decide)
      (by decide) (by decide) (by decide) (by decide) (by decide) (by decide)).1⟩

/-- C19: `timer_calibrate` terminates for every oracle: with fuel for 22 iterations of
each loop it never runs out of fuel, and more fuel does not change the result.  With
interrupts on, either the doubling loop stops at its trial number `j + 1 ≤ 22` (the
first that is too many loops), the refinement loop then makes exactly 9 trials and the
routine returns after `j + 1 + 9` trials; or all 22 doubling trials fit and the
routine fails the assertion `loops_per_tick != 0` after exactly 22 trials.  With
interrupts off it fails its first assertion without a trial. -/
theorem timer_calibrate_terminates (TIMER_FREQ : Nat) (tml : Nat → Nat → Bool)
    (fuel : Nat) (s : TimerState) (hf : 22 ≤ fuel) :
    timer_calibrate TIMER_FREQ tml fuel s ≠ Outcome.out_of_fuel ∧
    timer_calibrate TIMER_FREQ tml fuel s = timer_calibrate TIMER_FREQ tml 22 s ∧
    ((∃ s1 j ev m, timer_calibrate TIMER_FREQ tml fuel s = Outcome.returned s1 ∧
        s.level = intr_level.INTR_ON ∧ j ≤ 21 ∧
        new_events s.trace s1.trace =
          Event.printf Msg.calibrating ::
            (double_fits 10 j ++ [Event.too_many_loops (double_trial 10 j) true]) ++ ev ++
            [Event.printf (Msg.loops_per_s m)] ∧
        trials (double_fits 10 j ++ [Event.too_many_loops (double_trial 10 j) true]) = j + 1 ∧
        ev.length = 9 ∧ trials ev = 9 ∧
        trials (new_events s.trace s1.trace) = j + 1 + 9) ∨
     (∃ s1, timer_calibrate TIMER_FREQ tml fuel s = Outcome.panic s1 ∧
        s.level = intr_level.INTR_ON ∧ s1.loops_per_tick = 0 ∧
        new_events s.trace s1.trace = Event.printf Msg.calibrating :: double_fits 10 22 ∧
        trials (new_events s.trace s1.trace) = 22) ∨
     (timer_calibrate TIMER_FREQ tml fuel s = Outcome.panic s ∧
        s.level = intr_level.INTR_OFF)) := by
  have hd1 : ∀ j, trials (double_fits 10 j ++ [Event.too_many_loops (double_trial 10 j) true])
      = j + 1 := by
    intro j
    rw [trials_append, trials_double_fits]
    rfl
  cases hlev : s.level with
  | INTR_OFF =>
    have hne : ¬ intr_get_level s = intr_level.INTR_ON := by
      unfold intr_get_level
      rw [hlev]
      decide
    have hp : ∀ f, timer_calibrate TIMER_FREQ tml f s = Outcome.panic s := by
      intro f
      unfold timer_calibrate
      rw [if_neg hne]
    refine ⟨?_, ?_, Or.inr (Or.inr ⟨hp fuel, rfl⟩)⟩
    · rw [hp]
      intro h
      cases h
    · rw [hp, hp]
  | INTR_ON =>
    have h22 := timer_calibrate_spec TIMER_FREQ tml 22 s hlev (le_refl _)
    rcases timer_calibrate_spec TIMER_FREQ tml fuel s hlev hf with
      ⟨j, hj, hfit, hstop, heq⟩ | ⟨hfit, heq⟩
    · have heq22 : timer_calibrate TIMER_FREQ tml 22 s = timer_calibrate TIMER_FREQ tml fuel s := by
        rcases h22 with ⟨j', hj', hfit', hstop', heq'⟩ | ⟨hfit', heq'⟩
        · have hjj : j' = j := by
            rcases Nat.lt_trichotomy j' j with h | h | h
            · rw [hfit j' h] at hstop'
              cases hstop'
            · exact h
            · rw [hfit' j h] at hstop
              cases hstop
          subst hjj
          rw [heq', heq]
        · rw [hfit' j hj] at hstop
          cases hstop
      refine ⟨?_, heq22.symm, Or.inl ?_⟩
      · rw [heq]
        intro h
        cases h
      · rcases refine_upto_inv tml (10 + j) (after_double s j) rfl 9 (le_refl _) (by omega)
          with ⟨ev, htr, -, -, -, hlen, htrials, -⟩
        have hnew : new_events s.trace
            (emit (Event.printf (Msg.loops_per_s
              ((refine_upto tml (10 + j) 9 (after_double s j)).loops_per_tick
                * TIMER_FREQ % 2 ^ 64)))
              (refine_upto tml (10 + j) 9 (after_double s j))).trace =
            Event.printf Msg.calibrating ::
              (double_fits 10 j ++ [Event.too_many_loops (double_trial 10 j) true]) ++ ev ++
              [Event.printf (Msg.loops_per_s
                ((refine_upto tml (10 + j) 9 (after_double s j)).loops_per_tick
                  * TIMER_FREQ % 2 ^ 64))] := by
          rw [emit_trace, htr]
          simp only [after_double, List.append_assoc]
          rw [new_events_append]
        refine ⟨_, j, ev, _, heq, rfl, hj, hnew, hd1 j, hlen, htrials, ?_⟩
        rw [hnew, trials_append, trials_append]
        have h1 : trials (Event.printf Msg.calibrating ::
            (double_fits 10 j ++ [Event.too_many_loops (double_trial 10 j) true])) = j + 1 := by
          rw [← hd1 j]
          rfl
        rw [h1, htrials]
        rfl
    · have heq22 : timer_calibrate TIMER_FREQ tml 22 s = timer_calibrate TIMER_FREQ tml fuel s := by
        rcases h22 with ⟨j', hj', hfit', hstop', heq'⟩ | ⟨hfit', heq'⟩
        · rw [hfit j' hj'] at hstop'
          cases hstop'
        · rw [heq', heq]
      refine ⟨?_, heq22.symm, Or.inr (Or.inl ⟨_, heq, rfl, rfl, ?_, ?_⟩)⟩
      · rw [heq]
        intro h
        cases h
      · simp only []
        rw [new_events_append]
      · simp only []
        rw [new_events_append]
        have h1 : trials (Event.printf Msg.calibrating :: double_fits 10 22)
            = trials (double_fits 10 22) := rfl
        rw [h1, trials_double_fits]

/-- Scenario of C19: with an oracle for which every loop is too long the calibration
returns after the first doubling trial and nine refinement trials, with fuel 22 as with
fuel 100. -/
theorem timer_calibrate_terminates_scenario :
    22 ≤ 100 ∧
    timer_calibrate 100 (fun _ _ => true) 100 ⟨0, [], 0, intr_level.INTR_ON, []⟩
      = timer_calibrate 100 (fun _ _ => true) 22 ⟨0, [], 0, intr_level.INTR_ON, []⟩ ∧
    timer_calibrate 100 (fun _ _ => true) 100 ⟨0, [], 0, intr_level.INTR_ON, []⟩
      ≠ Outcome.out_of_fuel :=
  ⟨by decide,
   (timer_calibrate_terminates 100 (fun _ _ => true) 100
      ⟨0, [], 0, intr_level.INTR_ON, []⟩ (by decide)).2.1,
   (timer_calibrate_terminates 100 (fun _ _ => true) 100
      ⟨0, [], 0, intr_level.INTR_ON, []⟩ (by decide)).1⟩

/-- C20: `real_time_delay` fails its assertion exactly when the denominator is not a
multiple of 1000, and then it has not busy-waited (the state is the one on entry).  A
multiple of 1000 passes the assertion; the only one with which no busy-wait follows is
0, where `denom / 1000` is 0 and the division traps.  `timer_mdelay`, `timer_udelay`
and `timer_ndelay` never fail the assertion: for every argument and every interrupt
level they return after one `busy_wait`, with the sleep list unchanged and no
`sema_down`. -/
theorem real_time_delay_denominators (TIMER_FREQ : Nat) (num denom x : Int)
    (s : TimerState) :
    (real_time_delay TIMER_FREQ num denom s = Outcome.panic s ↔ Int.tmod denom 1000 ≠ 0) ∧
    (∀ s1, real_time_delay TIMER_FREQ num denom s = Outcome.panic s1 → s1 = s) ∧
    (real_time_delay TIMER_FREQ num denom s = Outcome.divide_error s ↔ denom = 0) ∧
    (real_time_delay TIMER_FREQ num denom s =
        Outcome.returned (busy_wait (real_time_loops TIMER_FREQ s.loops_per_tick num denom) s)
      ↔ (Int.tmod denom 1000 = 0 ∧ denom ≠ 0)) ∧
    timer_mdelay TIMER_FREQ x s =
      Outcome.returned (busy_wait (real_time_loops TIMER_FREQ s.loops_per_tick x 1000) s) ∧
    timer_udelay TIMER_FREQ x s =
      Outcome.returned
        (busy_wait (real_time_loops TIMER_FREQ s.loops_per_tick x (1000 * 1000)) s) ∧
    timer_ndelay TIMER_FREQ x s =
      Outcome.returned
        (busy_wait (real_time_loops TIMER_FREQ s.loops_per_tick x (1000 * 1000 * 1000)) s) ∧
    (∀ loops, (busy_wait loops s).sleeping_threads = s.sleeping_threads ∧
      (busy_wait loops s).ticks = s.ticks ∧ (busy_wait loops s).level = s.level ∧
      new_events s.trace (busy_wait loops s).trace = [Event.busy_wait loops] ∧
      downed (new_events s.trace (busy_wait loops s).trace) = []) := by
  have hz : Int.tmod denom 1000 = 0 → (Int.tdiv denom 1000 = 0 ↔ denom = 0) := by
    intro hm
    constructor
    · intro hq
      have := Int.tmod_add_tdiv denom 1000
      rw [hm, hq] at this
      omega
    · intro h0
      rw [h0]
      rfl
  refine ⟨?_, ?_, ?_, ?_, ?_, ?_, ?_, ?_⟩
  · unfold real_time_delay
    by_cases hm : Int.tmod denom 1000 = 0
    · by_cases hq : Int.tdiv denom 1000 = 0
      · simp [hm, hq]
      · simp [hm, hq]
    · simp [hm]
  · intro s1
    unfold real_time_delay
    by_cases hm : Int.tmod denom 1000 = 0
    · by_cases hq : Int.tdiv denom 1000 = 0
      · simp [hm, hq]
      · simp [hm, hq]
    · simp only [hm, if_false]
      intro h
      injection h with h
      exact h.symm
  · unfold real_time_delay
    by_cases hm : Int.tmod denom 1000 = 0
    · by_cases hq : Int.tdiv denom 1000 = 0
      · simp [hm, hq, (hz hm).1 hq]
      · have : denom ≠ 0 := fun h => hq ((hz hm).2 h)
        simp [hm, hq, this]
    · have : denom ≠ 0 := by
        intro h
        apply hm
        rw [h]
        rfl
      simp [hm, this]
  · unfold real_time_delay
    by_cases hm : Int.tmod denom 1000 = 0
    · by_cases hq : Int.tdiv denom 1000 = 0
      · simp [hm, hq, (hz hm).1 hq]
      · have : denom ≠ 0 := fun h => hq ((hz hm).2 h)
        simp [hm, hq, this]
    · simp [hm]
  · exact real_time_delay_returns TIMER_FREQ x 1000 s (Or.inl rfl)
  · exact real_time_delay_returns TIMER_FREQ x (1000 * 1000) s (Or.inr (Or.inl rfl))
  · exact real_time_delay_returns TIMER_FREQ x (1000 * 1000 * 1000) s (Or.inr (Or.inr rfl))
  · intro loops
    refine ⟨rfl, rfl, rfl, ?_, ?_⟩
    · simp [busy_wait, new_events]
    · simp [busy_wait, new_events, downed]

end Timer
